import Mathlib

/-!
# pyulz: the Python adapter over the ULZ engine

A shallow embedding of `src/ulz_bindings.cpp` (class `PyULZ`) and proofs about
its three methods `compress`, `decompress` and `decompress_with_size`.

Conventions of the embedding

* `size_t` is 64-bit and `int` is 32-bit.  Values are `Nat` / `Int`; every
  arithmetic step and cast of the source that could wrap is written with an
  explicit modulus (`add64`, `mul64`, `castInt`, `castSize`).
* The engine `CULZ` comes from `ulz.hpp`, which is not part of the sources at
  hand.  It is a parameter: the constant `EXCESS` and the two functions
  `Compress` and `Decompress`.  An engine function receives the input bytes,
  the `int` length, the current content of the output vector and its last
  `int` argument; it gives back the returned `int` and the new content of the
  output vector.
* A `throw std::runtime_error(..)` is the outcome `raised`, one constructor of
  `Raised` per throw site.
* Every method returns, next to its outcome, the list of engine calls it made.
* The `while (true)` loop of `decompress_with_size` is run with fuel; the
  outcome `none` means that the loop is still running when the fuel is spent.
-/

/-- Byte type `CULZ::U8` (an `unsigned char`). -/
abbrev U8 := Fin 256

/-- The value `std::numeric_limits<int>::max()` for a 32-bit `int`. -/
def INT_MAX : Nat := 2147483647

/-- The conversion `static_cast<int>(x)` of a `size_t` value: reduction modulo `2^32`
into the signed range. -/
def castInt (x : Nat) : Int :=
  ((x : Int) + 2147483648) % 4294967296 - 2147483648

/-- The conversion `static_cast<size_t>(i)` of an `int` value: reduction modulo `2^64`. -/
def castSize (i : Int) : Nat :=
  (i % 18446744073709551616).toNat

/-- Addition of two `size_t` values. -/
def add64 (a b : Nat) : Nat :=
  (a + b) % 18446744073709551616

/-- Multiplication of two `size_t` values. -/
def mul64 (a b : Nat) : Nat :=
  (a * b) % 18446744073709551616

/-- The engine of `ulz.hpp`, taken as a parameter.  `EXCESS` is its non-negative
`int` constant; `Compress input in_len out level` and
`Decompress input in_len out out_len` give the returned `int` and the content of
the output vector after the call. -/
structure CULZ where
  EXCESS : Nat
  Compress : List U8 → Int → List U8 → Int → Int × List U8
  Decompress : List U8 → Int → List U8 → Int → Int × List U8

/-- The throw sites of `ulz_bindings.cpp`, in source order. -/
inductive Raised where
  | level_out_of_range
  | compress_input_too_large
  | compression_failed
  | compressed_exceeds_buffer
  | input_too_large
  | estimated_too_large
  | decompression_failed
  | decompressed_exceeds_estimate
  | growth_failed
  deriving DecidableEq, Repr

/-- The message carried by each `std::runtime_error`. -/
def Raised.what : Raised → String
  | .level_out_of_range => "Compression level must be between 1 and 9"
  | .compress_input_too_large => "Input data too large (max ~2GB)"
  | .compression_failed => "Compression failed"
  | .compressed_exceeds_buffer => "Compressed data exceeds buffer size"
  | .input_too_large => "Input data too large (max 2GB)"
  | .estimated_too_large => "Estimated output size too large (max ~2GB)"
  | .decompression_failed => "Decompression failed"
  | .decompressed_exceeds_estimate => "Decompressed data exceeds estimated size"
  | .growth_failed => "Decompression failed: output size too large or data corrupt"

/-- How a call of a method ends: it returns a value or it throws. -/
inductive Outcome (α : Type) where
  | returned (v : α)
  | raised (e : Raised)
  deriving DecidableEq, Repr

/-- One call `ulz.Compress(input, in_len, output.data(), level)`: the `int` arguments,
the size of the vector `output` and the returned `int`. -/
structure CompressCall where
  in_len : Int
  buf_size : Nat
  level : Int
  ret : Int
  deriving DecidableEq, Repr

/-- One call `ulz.Decompress(input, in_len, output.data(), out_len)`: the `int`
arguments, the size of the vector `output` and the returned `int`. -/
structure DecompressCall where
  in_len : Int
  buf_size : Nat
  out_len : Int
  ret : Int
  deriving DecidableEq, Repr

/-- The value `static_cast<size_t>(std::numeric_limits<int>::max() - CULZ::EXCESS)`. -/
def CULZ.limit (E : CULZ) : Nat :=
  castSize ((INT_MAX : Int) - (E.EXCESS : Int))

/-- The constructor `py::bytes(output.data(), n)`: the first `n` bytes of the vector. -/
def py_bytes (output : List U8) (n : Int) : List U8 :=
  output.take n.toNat

/-- The call `output.resize(n)` of a `std::vector<U8>`: cut to `n` elements or fill up
with zero bytes. -/
def resize (output : List U8) (n : Nat) : List U8 :=
  output.take n ++ List.replicate (n - output.length) 0

namespace PyULZ

/-- The method `PyULZ::compress` (lines 14-47). -/
def compress (E : CULZ) (data : List U8) (level : Int) :
    List CompressCall × Outcome (List U8) :=
  if level < 1 ∨ level > 9 then
    ([], .raised .level_out_of_range)
  else
    let input_size := data.length
    if input_size > E.limit then
      ([], .raised .compress_input_too_large)
    else
      let output_buffer_size := add64 input_size E.EXCESS
      let output : List U8 := List.replicate output_buffer_size 0
      let r := E.Compress data (castInt input_size) output level
      let compressed_size := r.1
      let call : CompressCall := ⟨castInt input_size, output.length, level, compressed_size⟩
      if compressed_size < 0 then
        ([call], .raised .compression_failed)
      else if compressed_size > castInt output_buffer_size then
        ([call], .raised .compressed_exceeds_buffer)
      else
        ([call], .returned (py_bytes r.2 compressed_size))

/-- The method `PyULZ::decompress` (lines 49-94). -/
def decompress (E : CULZ) (compressed_data : List U8) (original_size : Nat) :
    List DecompressCall × Outcome (List U8) :=
  let input_size := compressed_data.length
  if input_size > castSize (INT_MAX : Int) then
    ([], .raised .input_too_large)
  else
    let estimated_output_size :=
      if original_size > 0 then original_size else mul64 input_size 4
    if estimated_output_size > E.limit then
      ([], .raised .estimated_too_large)
    else
      let output_buffer_size := add64 estimated_output_size E.EXCESS
      let output : List U8 := List.replicate output_buffer_size 0
      let r := E.Decompress compressed_data (castInt input_size) output
        (castInt estimated_output_size)
      let decompressed_size := r.1
      let call : DecompressCall :=
        ⟨castInt input_size, output.length, castInt estimated_output_size, decompressed_size⟩
      if decompressed_size < 0 then
        ([call], .raised .decompression_failed)
      else if decompressed_size > castInt estimated_output_size then
        ([call], .raised .decompressed_exceeds_estimate)
      else
        ([call], .returned (py_bytes r.2 decompressed_size))

/-- The `while (true)` loop of `PyULZ::decompress_with_size` (lines 112-139) followed by
the construction of the returned pair (lines 141-142).  The first argument is the fuel; the
state of the loop is `estimated_output_size` and the content of the vector `output`. -/
def decompress_with_size_loop (E : CULZ) (data_str : List U8) (input_size : Nat) :
    Nat → Nat → List U8 → List DecompressCall × Option (Outcome (List U8 × Nat))
  | 0, _, _ => ([], none)
  | fuel + 1, estimated_output_size, output =>
    let estimated_output_size :=
      if estimated_output_size > E.limit then E.limit else estimated_output_size
    let output := resize output (add64 estimated_output_size E.EXCESS)
    let r := E.Decompress data_str (castInt input_size) output (castInt estimated_output_size)
    let decompressed_size := r.1
    let call : DecompressCall :=
      ⟨castInt input_size, output.length, castInt estimated_output_size, decompressed_size⟩
    if decompressed_size ≥ 0 then
      ([call], some (.returned (py_bytes r.2 decompressed_size, castSize decompressed_size)))
    else if estimated_output_size ≥ E.limit then
      ([call], some (.raised .growth_failed))
    else
      let rest := decompress_with_size_loop E data_str input_size fuel
        (mul64 estimated_output_size 2) r.2
      (call :: rest.1, rest.2)

/-- The method `PyULZ::decompress_with_size` (lines 97-143), run with the given fuel for
its loop. -/
def decompress_with_size (E : CULZ) (fuel : Nat) (compressed_data : List U8) :
    List DecompressCall × Option (Outcome (List U8 × Nat)) :=
  let input_size := compressed_data.length
  if input_size > castSize (INT_MAX : Int) then
    ([], some (.raised .input_too_large))
  else
    decompress_with_size_loop E compressed_data input_size fuel (mul64 input_size 4) []

end PyULZ

/-! ## The engine calls of the methods, in unbounded arithmetic -/

/-- The capacity `decompress` chooses (lines 59-65) when nothing wraps: the hint when it is
positive, else four times the length of the compressed input. -/
def chosen_capacity (n original_size : Nat) : Nat :=
  if original_size > 0 then original_size else 4 * n

/-- What the engine gives back on the call of `compress` (lines 31-36) when no cast wraps:
input `data`, `in_len = len(data)`, a zeroed vector of `len(data) + EXCESS` bytes and
`level`. -/
def compress_engine_result (E : CULZ) (data : List U8) (level : Int) : Int × List U8 :=
  E.Compress data data.length (List.replicate (data.length + E.EXCESS) 0) level

/-- What the engine gives back on the call of `decompress` (lines 77-82) when no cast
wraps: input `data`, `in_len = len(data)`, a zeroed vector of `capacity + EXCESS` bytes and
`out_len = capacity`, for the chosen capacity. -/
def decompress_engine_result (E : CULZ) (data : List U8) (original_size : Nat) :
    Int × List U8 :=
  E.Decompress data data.length
    (List.replicate (chosen_capacity data.length original_size + E.EXCESS) 0)
    (chosen_capacity data.length original_size : Nat)

/-- The capacity of one round of the loop of `decompress_with_size` (lines 114-117) when
nothing wraps: the estimate, capped at `INT_MAX - EXCESS`. -/
def capped (E : CULZ) (est : Nat) : Nat :=
  min est (INT_MAX - E.EXCESS)

/-- What the engine gives back in one round of the loop of `decompress_with_size`
(lines 119-126) when no cast wraps: the vector is resized to `capacity + EXCESS` bytes and
`out_len` is the capped estimate. -/
def loop_engine_result (E : CULZ) (data : List U8) (est : Nat) (out : List U8) :
    Int × List U8 :=
  E.Decompress data data.length (resize out (capped E est + E.EXCESS)) (capped E est : Nat)

/-- The record of the engine call of one round of the loop, when no cast wraps. -/
def loop_call (E : CULZ) (data : List U8) (est : Nat) (out : List U8) : DecompressCall :=
  ⟨data.length, capped E est + E.EXCESS, (capped E est : Nat),
    (loop_engine_result E data est out).1⟩

/-- Content of the vector `output` at the start of round `k` of the loop of
`decompress_with_size` when the loop was entered with the estimate `est` and the content `out`
and every earlier round failed below the cap: such a round leaves the vector as the engine
left it (line 119 resizes it in the next round) and doubles the estimate (line 138). -/
def loop_buffer (E : CULZ) (data : List U8) : Nat → List U8 → Nat → List U8
  | _, out, 0 => out
  | est, out, k + 1 => loop_buffer E data (2 * est) (loop_engine_result E data est out).2 k

/-! ## Engines used as concrete instances -/

/-- An engine that refuses every request: both functions return `-1` and leave the output
vector as it is. -/
def refusingEngine : CULZ where
  EXCESS := 16
  Compress := fun _ _ out _ => (-1, out)
  Decompress := fun _ _ out _ => (-1, out)

/-- Writing the bytes `c` at the start of the vector `out`. -/
def writeAt0 (c out : List U8) : List U8 :=
  c ++ out.drop c.length

/-- Encoder of the run engine: a non-empty run of at most 255 equal bytes becomes the three
bytes `1, length, byte`; any other input is stored behind a `0` tag. -/
def runEncode (input : List U8) : List U8 :=
  match input with
  | [] => [0]
  | x :: rest =>
    if rest.length < 255 ∧ rest = List.replicate rest.length x then
      [1, Fin.ofNat (rest.length + 1), x]
    else
      0 :: input

/-- Decoder of the run engine. -/
def runDecode (c : List U8) : Option (List U8) :=
  match c with
  | [] => none
  | t :: rest =>
    if t = 0 then some rest
    else if t = 1 then
      match rest with
      | [n, x] => if n.val = 0 then none else some (List.replicate n.val x)
      | _ => none
    else none

/-- A small lossless engine with `EXCESS = 16`.  `Decompress` fails with `-1` on a stream it
cannot decode and when the decoded length exceeds `out_len`. -/
def runEngine : CULZ where
  EXCESS := 16
  Compress := fun input _ out _ => ((runEncode input).length, writeAt0 (runEncode input) out)
  Decompress := fun input _ out out_len =>
    match runDecode input with
    | none => (-1, out)
    | some b => if (b.length : Int) ≤ out_len then (b.length, writeAt0 b out) else (-1, out)

/-! ## The contract assumed of the engine -/

/-- The byte string `c` is a compressed form of `b` for the engine `E`: it can be handed to
the engine (its length is an `int`), and `Decompress` on `c` with capacity `cap` and an output
vector of at least `cap + EXCESS` bytes returns `len(b)` and writes `b` when `cap >= len(b)`,
and returns a negative value when `cap < len(b)`. -/
def IsCompressedForm (E : CULZ) (c b : List U8) : Prop :=
  c.length ≤ INT_MAX ∧
  ∀ (out : List U8) (cap : Nat), cap + E.EXCESS ≤ out.length →
    (b.length ≤ cap →
      (E.Decompress c c.length out cap).1 = b.length ∧
      ((E.Decompress c c.length out cap).2).take b.length = b) ∧
    (cap < b.length → (E.Decompress c c.length out cap).1 < 0)

/-- The engine meets its contract: for a level in `[1,9]`, an input `b` with
`len(b) + EXCESS <= INT_MAX` and an output vector of at least `len(b) + EXCESS` bytes,
`Compress` returns a size in `[0, len(b) + EXCESS]` and the bytes it wrote are a compressed
form of `b`. -/
def MeetsContract (E : CULZ) : Prop :=
  ∀ (b out : List U8) (level : Int), 1 ≤ level → level ≤ 9 →
    b.length + E.EXCESS ≤ INT_MAX → b.length + E.EXCESS ≤ out.length →
    0 ≤ (E.Compress b b.length out level).1 ∧
    (E.Compress b b.length out level).1 ≤ ((b.length + E.EXCESS : Nat) : Int) ∧
    IsCompressedForm E
      ((E.Compress b b.length out level).2.take (E.Compress b b.length out level).1.toNat) b

/-! ## Arithmetic of the casts -/

theorem limit_eq (E : CULZ) (hE : E.EXCESS ≤ INT_MAX) : E.limit = INT_MAX - E.EXCESS := by
  unfold CULZ.limit castSize
  unfold INT_MAX at *
  omega

theorem castSize_INT_MAX : castSize (INT_MAX : Int) = INT_MAX := by
  unfold castSize INT_MAX
  omega

theorem castInt_of_le (x : Nat) (hx : x ≤ INT_MAX) : castInt x = (x : Int) := by
  unfold castInt
  unfold INT_MAX at hx
  omega

theorem add64_of_le (a b : Nat) (h : a + b ≤ INT_MAX) : add64 a b = a + b := by
  unfold add64
  unfold INT_MAX at h
  omega

theorem mul64_four (n : Nat) (h : n ≤ INT_MAX) : mul64 n 4 = 4 * n := by
  unfold mul64
  unfold INT_MAX at h
  omega

theorem mul64_two (n : Nat) (h : n ≤ INT_MAX) : mul64 n 2 = 2 * n := by
  unfold mul64
  unfold INT_MAX at h
  omega

theorem length_resize (output : List U8) (n : Nat) : (resize output n).length = n := by
  unfold resize
  simp only [List.length_append, List.length_take, List.length_replicate]
  omega

/-! ## The methods after their guards, in unbounded arithmetic -/

namespace PyULZ

theorem compress_of_bad_level (E : CULZ) (data : List U8) (level : Int)
    (h : level < 1 ∨ level > 9) :
    compress E data level = ([], .raised .level_out_of_range) := by
  unfold compress
  simp only [h, if_true]

theorem compress_of_too_long (E : CULZ) (data : List U8) (level : Int)
    (hE : E.EXCESS ≤ INT_MAX) (h1 : 1 ≤ level) (h9 : level ≤ 9)
    (hn : INT_MAX - E.EXCESS < data.length) :
    compress E data level = ([], .raised .compress_input_too_large) := by
  have hlim := limit_eq E hE
  have hlv : ¬ (level < 1 ∨ level > 9) := by omega
  have hsz : data.length > E.limit := by omega
  unfold compress
  simp only [hlv, hsz, if_false, if_true]

theorem compress_of_valid (E : CULZ) (data : List U8) (level : Int)
    (hE : E.EXCESS ≤ INT_MAX) (h1 : 1 ≤ level) (h9 : level ≤ 9)
    (hn : data.length ≤ INT_MAX - E.EXCESS) :
    compress E data level =
      if (compress_engine_result E data level).1 < 0 then
        ([⟨data.length, data.length + E.EXCESS, level, (compress_engine_result E data level).1⟩],
          .raised .compression_failed)
      else if (compress_engine_result E data level).1 > ((data.length + E.EXCESS : Nat) : Int)
      then
        ([⟨data.length, data.length + E.EXCESS, level, (compress_engine_result E data level).1⟩],
          .raised .compressed_exceeds_buffer)
      else
        ([⟨data.length, data.length + E.EXCESS, level, (compress_engine_result E data level).1⟩],
          .returned ((compress_engine_result E data level).2.take
            (compress_engine_result E data level).1.toNat)) := by
  have hlim := limit_eq E hE
  have hsum : data.length + E.EXCESS ≤ INT_MAX := by omega
  have hc := castInt_of_le data.length (by omega)
  have ha := add64_of_le data.length E.EXCESS hsum
  have hc2 := castInt_of_le (data.length + E.EXCESS) hsum
  have hlv : ¬ (level < 1 ∨ level > 9) := by omega
  have hsz : ¬ (data.length > E.limit) := by omega
  unfold compress compress_engine_result
  simp only [hlv, hsz, if_false, ha, hc, hc2, List.length_replicate, py_bytes]

theorem decompress_of_too_long (E : CULZ) (data : List U8) (original_size : Nat)
    (hn : INT_MAX < data.length) :
    decompress E data original_size = ([], .raised .input_too_large) := by
  have hsz : data.length > castSize (INT_MAX : Int) := by
    rw [castSize_INT_MAX]; omega
  unfold decompress
  simp only [hsz, if_true]

theorem decompress_estimate (data : List U8) (original_size : Nat)
    (hn : data.length ≤ INT_MAX) :
    (if original_size > 0 then original_size else mul64 data.length 4)
      = chosen_capacity data.length original_size := by
  unfold chosen_capacity
  rw [mul64_four _ hn]

theorem decompress_of_large_estimate (E : CULZ) (data : List U8) (original_size : Nat)
    (hE : E.EXCESS ≤ INT_MAX) (hn : data.length ≤ INT_MAX)
    (hcap : INT_MAX - E.EXCESS < chosen_capacity data.length original_size) :
    decompress E data original_size = ([], .raised .estimated_too_large) := by
  have hlim := limit_eq E hE
  have hest := decompress_estimate data original_size hn
  have hsz : ¬ (data.length > castSize (INT_MAX : Int)) := by
    rw [castSize_INT_MAX]; omega
  have hsz2 : chosen_capacity data.length original_size > E.limit := by omega
  unfold decompress
  simp only [hsz, hest, hsz2, if_false, if_true]

theorem decompress_of_valid (E : CULZ) (data : List U8) (original_size : Nat)
    (hE : E.EXCESS ≤ INT_MAX) (hn : data.length ≤ INT_MAX)
    (hcap : chosen_capacity data.length original_size ≤ INT_MAX - E.EXCESS) :
    decompress E data original_size =
      if (decompress_engine_result E data original_size).1 < 0 then
        ([⟨data.length, chosen_capacity data.length original_size + E.EXCESS,
            (chosen_capacity data.length original_size : Nat),
            (decompress_engine_result E data original_size).1⟩],
          .raised .decompression_failed)
      else if (decompress_engine_result E data original_size).1
            > ((chosen_capacity data.length original_size : Nat) : Int) then
        ([⟨data.length, chosen_capacity data.length original_size + E.EXCESS,
            (chosen_capacity data.length original_size : Nat),
            (decompress_engine_result E data original_size).1⟩],
          .raised .decompressed_exceeds_estimate)
      else
        ([⟨data.length, chosen_capacity data.length original_size + E.EXCESS,
            (chosen_capacity data.length original_size : Nat),
            (decompress_engine_result E data original_size).1⟩],
          .returned ((decompress_engine_result E data original_size).2.take
            (decompress_engine_result E data original_size).1.toNat)) := by
  have hlim := limit_eq E hE
  have hest := decompress_estimate data original_size hn
  have hsum : chosen_capacity data.length original_size + E.EXCESS ≤ INT_MAX := by omega
  have hc := castInt_of_le data.length hn
  have ha := add64_of_le _ E.EXCESS hsum
  have hc2 := castInt_of_le (chosen_capacity data.length original_size) (by omega)
  have hsz : ¬ (data.length > castSize (INT_MAX : Int)) := by
    rw [castSize_INT_MAX]; omega
  have hsz2 : ¬ (chosen_capacity data.length original_size > E.limit) := by omega
  unfold decompress decompress_engine_result
  simp only [hsz, hest, hsz2, if_false, ha, hc, hc2, List.length_replicate, py_bytes]

theorem compress_calls_of_valid (E : CULZ) (data : List U8) (level : Int)
    (hE : E.EXCESS ≤ INT_MAX) (h1 : 1 ≤ level) (h9 : level ≤ 9)
    (hn : data.length ≤ INT_MAX - E.EXCESS) :
    (compress E data level).1 =
      [⟨data.length, data.length + E.EXCESS, level, (compress_engine_result E data level).1⟩] := by
  rw [compress_of_valid E data level hE h1 h9 hn]
  split_ifs <;> rfl

theorem decompress_calls_of_valid (E : CULZ) (data : List U8) (original_size : Nat)
    (hE : E.EXCESS ≤ INT_MAX) (hn : data.length ≤ INT_MAX)
    (hcap : chosen_capacity data.length original_size ≤ INT_MAX - E.EXCESS) :
    (decompress E data original_size).1 =
      [⟨data.length, chosen_capacity data.length original_size + E.EXCESS,
        (chosen_capacity data.length original_size : Nat),
        (decompress_engine_result E data original_size).1⟩] := by
  rw [decompress_of_valid E data original_size hE hn hcap]
  split_ifs <;> rfl

theorem decompress_of_engine_failure (E : CULZ) (data : List U8)
    (hE : E.EXCESS ≤ INT_MAX) (hn : data.length ≤ INT_MAX)
    (hcap : 4 * data.length ≤ INT_MAX - E.EXCESS)
    (hfail : (decompress_engine_result E data 0).1 < 0) :
    decompress E data 0 =
      ([⟨data.length, 4 * data.length + E.EXCESS, ((4 * data.length : Nat) : Int),
          (decompress_engine_result E data 0).1⟩], .raised .decompression_failed) := by
  have hc : chosen_capacity data.length 0 = 4 * data.length := rfl
  have h := decompress_of_valid E data 0 hE hn (by rw [hc]; exact hcap)
  rw [if_pos hfail, hc] at h
  exact h

end PyULZ

/-! ## The run engine meets the contract -/

theorem runDecode_runEncode (b : List U8) : runDecode (runEncode b) = some b := by
  cases b with
  | nil => rfl
  | cons x rest =>
    simp only [runEncode]
    split_ifs with h
    · have hlt : (rest.length + 1) % 256 = rest.length + 1 := Nat.mod_eq_of_lt (by omega)
      have hv : (Fin.ofNat (rest.length + 1) : U8).val = rest.length + 1 := hlt
      have hne : ¬ ((1 : U8) = 0) := by decide
      have hnz : ¬ (rest.length + 1 = 0) := by omega
      unfold runDecode
      simp only [hne, if_false, if_true, hv, hnz, List.replicate_succ]
      rw [← h.2]
    · unfold runDecode
      simp only [if_true]

theorem runEncode_length_le (b : List U8) : (runEncode b).length ≤ b.length + 16 := by
  cases b with
  | nil => decide
  | cons x rest =>
    simp only [runEncode]
    split_ifs <;> simp only [List.length_cons, List.length_nil] <;> omega

theorem take_writeAt0 (c out : List U8) : (writeAt0 c out).take c.length = c := by
  unfold writeAt0
  rw [List.take_append_of_le_length (Nat.le_refl _), List.take_length]

theorem runEngine_form (c b : List U8) (hd : runDecode c = some b) (hc : c.length ≤ INT_MAX) :
    IsCompressedForm runEngine c b := by
  refine ⟨hc, ?_⟩
  intro out cap _
  have hD : runEngine.Decompress c c.length out cap =
      if (b.length : Int) ≤ (cap : Int) then ((b.length : Int), writeAt0 b out)
      else (-1, out) := by
    show (match runDecode c with
      | none => (-1, out)
      | some b => if (b.length : Int) ≤ (cap : Int) then ((b.length : Int), writeAt0 b out)
          else (-1, out)) = _
    rw [hd]
  rw [hD]
  constructor
  · intro hle
    have hle2 : (b.length : Int) ≤ (cap : Int) := by omega
    rw [if_pos hle2]
    exact ⟨rfl, take_writeAt0 b out⟩
  · intro hlt
    have hlt2 : ¬ (b.length : Int) ≤ (cap : Int) := by omega
    rw [if_neg hlt2]
    show (-1 : Int) < 0
    decide

theorem runEngine_meets_contract : MeetsContract runEngine := by
  intro b out level _ _ hsum _
  have hC : runEngine.Compress b b.length out level =
      (((runEncode b).length : Int), writeAt0 (runEncode b) out) := rfl
  have hx : runEngine.EXCESS = 16 := rfl
  have hlen := runEncode_length_le b
  rw [hC]
  simp only [Int.toNat_ofNat, take_writeAt0]
  refine ⟨by omega, by omega, ?_⟩
  exact runEngine_form _ b (runDecode_runEncode b) (by omega)

/-! ## The retry loop of `decompress_with_size` -/

namespace PyULZ

theorem loop_step (E : CULZ) (data : List U8) (fuel est : Nat) (out : List U8)
    (hE : E.EXCESS ≤ INT_MAX) (hn : data.length ≤ INT_MAX) :
    decompress_with_size_loop E data data.length (fuel + 1) est out =
      if 0 ≤ (loop_engine_result E data est out).1 then
        ([loop_call E data est out],
          some (.returned ((loop_engine_result E data est out).2.take
            (loop_engine_result E data est out).1.toNat,
            castSize (loop_engine_result E data est out).1)))
      else if INT_MAX - E.EXCESS ≤ est then
        ([loop_call E data est out], some (.raised .growth_failed))
      else
        (loop_call E data est out ::
          (decompress_with_size_loop E data data.length fuel (2 * est)
            (loop_engine_result E data est out).2).1,
          (decompress_with_size_loop E data data.length fuel (2 * est)
            (loop_engine_result E data est out).2).2) := by
  have hlim := limit_eq E hE
  have hcap : (if est > E.limit then E.limit else est) = capped E est := by
    unfold capped
    rw [hlim]
    split_ifs <;> omega
  have hle : capped E est ≤ INT_MAX - E.EXCESS := by
    unfold capped; omega
  have hsum : capped E est + E.EXCESS ≤ INT_MAX := by omega
  have hc := castInt_of_le data.length hn
  have ha := add64_of_le _ E.EXCESS hsum
  have hc2 := castInt_of_le (capped E est) (by omega)
  have hge : (capped E est ≥ E.limit) ↔ (INT_MAX - E.EXCESS ≤ est) := by
    unfold capped; rw [hlim]; omega
  rw [decompress_with_size_loop]
  simp only [hcap, ha, hc, hc2, length_resize, py_bytes, ge_iff_le]
  unfold loop_call loop_engine_result
  by_cases h0 : 0 ≤ (E.Decompress data (↑data.length) (resize out (capped E est + E.EXCESS))
      ↑(capped E est)).1
  · simp only [h0, if_true]
  · simp only [h0, if_false]
    by_cases h1 : INT_MAX - E.EXCESS ≤ est
    · have h1b : E.limit ≤ capped E est := hge.mpr h1
      simp only [h1, h1b, if_true]
    · have h1b : ¬ E.limit ≤ capped E est := fun h => h1 (hge.mp h)
      have hce : capped E est = est := by unfold capped; omega
      have hm := mul64_two est (by omega)
      have h1c : ¬ E.limit ≤ est := by omega
      simp only [h1, h1b, h1c, if_false, hce, hm]

theorem loop_call_fields (E : CULZ) (data : List U8) (est : Nat) (out : List U8) :
    (loop_call E data est out).in_len = data.length ∧
    (loop_call E data est out).out_len = ((min (est * 2 ^ 0) (INT_MAX - E.EXCESS) : Nat) : Int) ∧
    (loop_call E data est out).buf_size = min (est * 2 ^ 0) (INT_MAX - E.EXCESS) + E.EXCESS ∧
    (loop_call E data est out).ret = (loop_engine_result E data est out).1 := by
  unfold loop_call capped
  simp only [pow_zero, mul_one, and_self]

theorem loop_schedule (E : CULZ) (data : List U8)
    (hE : E.EXCESS ≤ INT_MAX) (hn : data.length ≤ INT_MAX) :
    ∀ (fuel est : Nat) (out : List U8) (k : Nat) (call : DecompressCall),
      (decompress_with_size_loop E data data.length fuel est out).1[k]? = some call →
      call.in_len = data.length ∧
      call.out_len = ((min (est * 2 ^ k) (INT_MAX - E.EXCESS) : Nat) : Int) ∧
      call.buf_size = min (est * 2 ^ k) (INT_MAX - E.EXCESS) + E.EXCESS := by
  intro fuel
  induction fuel with
  | zero =>
    intro est out k call h
    rw [decompress_with_size_loop] at h
    simp only [List.getElem?_nil] at h
    exact Option.noConfusion h
  | succ f ih =>
    intro est out k call h
    rw [loop_step E data f est out hE hn] at h
    have hf := loop_call_fields E data est out
    cases k with
    | zero =>
      have hc : call = loop_call E data est out := by
        split_ifs at h <;> simp only [List.getElem?_cons_zero, Option.some.injEq] at h <;>
          exact h.symm
      rw [hc]
      exact ⟨hf.1, hf.2.1, hf.2.2.1⟩
    | succ j =>
      split_ifs at h with h0 h1
      · simp only [List.getElem?_cons_succ, List.getElem?_nil] at h
        exact Option.noConfusion h
      · simp only [List.getElem?_cons_succ, List.getElem?_nil] at h
        exact Option.noConfusion h
      · simp only [List.getElem?_cons_succ] at h
        have h2 := ih (2 * est) _ j call h
        have he : 2 * est * 2 ^ j = est * 2 ^ (j + 1) := by ring
        rw [he] at h2
        exact h2

theorem loop_continue (E : CULZ) (data : List U8)
    (hE : E.EXCESS ≤ INT_MAX) (hn : data.length ≤ INT_MAX) :
    ∀ (fuel est : Nat) (out : List U8) (k : Nat) (call : DecompressCall),
      (decompress_with_size_loop E data data.length fuel est out).1[k]? = some call →
      k + 1 < (decompress_with_size_loop E data data.length fuel est out).1.length →
      call.ret < 0 ∧ call.out_len < ((INT_MAX - E.EXCESS : Nat) : Int) := by
  intro fuel
  induction fuel with
  | zero =>
    intro est out k call h
    rw [decompress_with_size_loop] at h
    simp only [List.getElem?_nil] at h
    exact Option.noConfusion h
  | succ f ih =>
    intro est out k call h hlen
    rw [loop_step E data f est out hE hn] at h hlen
    have hf := loop_call_fields E data est out
    split_ifs at h hlen with h0 h1
    · simp only [List.length_singleton] at hlen
      omega
    · simp only [List.length_singleton] at hlen
      omega
    · cases k with
      | zero =>
        simp only [List.getElem?_cons_zero, Option.some.injEq] at h
        rw [← h, hf.2.2.2, hf.2.1]
        simp only [pow_zero, mul_one]
        omega
      | succ j =>
        simp only [List.getElem?_cons_succ] at h
        simp only [List.length_cons] at hlen
        exact ih (2 * est) _ j call h (by omega)

theorem loop_raise (E : CULZ) (data : List U8)
    (hE : E.EXCESS ≤ INT_MAX) (hn : data.length ≤ INT_MAX) :
    ∀ (fuel est : Nat) (out : List U8) (e : Raised),
      (decompress_with_size_loop E data data.length fuel est out).2 = some (.raised e) →
      e = .growth_failed ∧
      ∃ call, (decompress_with_size_loop E data data.length fuel est out).1.getLast? = some call ∧
        call.out_len = ((INT_MAX - E.EXCESS : Nat) : Int) ∧ call.ret < 0 := by
  intro fuel
  induction fuel with
  | zero =>
    intro est out e h
    rw [decompress_with_size_loop] at h
    exact Option.noConfusion h
  | succ f ih =>
    intro est out e h
    rw [loop_step E data f est out hE hn] at h ⊢
    have hf := loop_call_fields E data est out
    split_ifs at h ⊢ with h0 h1
    · simp only [Option.some.injEq] at h
      exact Outcome.noConfusion h
    · simp only [Option.some.injEq, Outcome.raised.injEq] at h
      refine ⟨h.symm, loop_call E data est out, rfl, ?_, ?_⟩
      · rw [hf.2.1]
        simp only [pow_zero, mul_one]
        omega
      · rw [hf.2.2.2]
        omega
    · obtain ⟨he, call, hlast, hout, hret⟩ := ih (2 * est) _ e h
      refine ⟨he, call, ?_, hout, hret⟩
      rw [List.getLast?_cons, hlast]
      rfl

theorem loop_finishes (E : CULZ) (data : List U8)
    (hE : E.EXCESS ≤ INT_MAX) (hn : data.length ≤ INT_MAX) :
    ∀ (fuel est : Nat) (out : List U8), INT_MAX - E.EXCESS ≤ est * 2 ^ fuel →
      (decompress_with_size_loop E data data.length (fuel + 1) est out).2 ≠ none := by
  intro fuel
  induction fuel with
  | zero =>
    intro est out h
    simp only [pow_zero, mul_one] at h
    rw [loop_step E data 0 est out hE hn]
    split_ifs
    · exact Option.some_ne_none _
    · exact Option.some_ne_none _
  | succ f ih =>
    intro est out h
    rw [loop_step E data (f + 1) est out hE hn]
    split_ifs
    · exact Option.some_ne_none _
    · exact Option.some_ne_none _
    · apply ih
      have he : 2 * est * 2 ^ f = est * 2 ^ (f + 1) := by ring
      rw [he]
      exact h

theorem resize_nil (n : Nat) : resize [] n = List.replicate n 0 := by
  unfold resize
  simp only [List.take_nil, List.length_nil, Nat.sub_zero, List.nil_append]

theorem loop_first_call (E : CULZ) (data : List U8) (fuel est : Nat) (out : List U8)
    (hE : E.EXCESS ≤ INT_MAX) (hn : data.length ≤ INT_MAX) :
    (decompress_with_size_loop E data data.length (fuel + 1) est out).1[0]?
      = some (loop_call E data est out) := by
  rw [loop_step E data fuel est out hE hn]
  split_ifs <;> exact List.getElem?_cons_zero

theorem loop_trace (E : CULZ) (data : List U8)
    (hE : E.EXCESS ≤ INT_MAX) (hn : data.length ≤ INT_MAX) :
    ∀ (fuel est : Nat) (out : List U8) (k : Nat) (call : DecompressCall),
      (decompress_with_size_loop E data data.length fuel est out).1[k]? = some call →
      call = loop_call E data (est * 2 ^ k) (loop_buffer E data est out k) := by
  intro fuel
  induction fuel with
  | zero =>
    intro est out k call h
    rw [decompress_with_size_loop] at h
    simp only [List.getElem?_nil] at h
    exact Option.noConfusion h
  | succ f ih =>
    intro est out k call h
    cases k with
    | zero =>
      rw [loop_first_call E data f est out hE hn] at h
      rw [loop_buffer]
      simp only [pow_zero, mul_one]
      exact (Option.some.inj h).symm
    | succ j =>
      rw [loop_step E data f est out hE hn] at h
      split_ifs at h with h0 h1
      · simp only [List.getElem?_cons_succ, List.getElem?_nil] at h
        exact Option.noConfusion h
      · simp only [List.getElem?_cons_succ, List.getElem?_nil] at h
        exact Option.noConfusion h
      · simp only [List.getElem?_cons_succ] at h
        have h2 := ih (2 * est) _ j call h
        have he : 2 * est * 2 ^ j = est * 2 ^ (j + 1) := by ring
        rw [he] at h2
        rw [loop_buffer]
        exact h2

theorem loop_return (E : CULZ) (data : List U8)
    (hE : E.EXCESS ≤ INT_MAX) (hn : data.length ≤ INT_MAX) :
    ∀ (fuel est : Nat) (out : List U8) (k : Nat) (call : DecompressCall),
      (decompress_with_size_loop E data data.length fuel est out).1[k]? = some call →
      0 ≤ call.ret →
      (decompress_with_size_loop E data data.length fuel est out).1.length = k + 1 ∧
      (decompress_with_size_loop E data data.length fuel est out).2 =
        some (.returned
          ((loop_engine_result E data (est * 2 ^ k) (loop_buffer E data est out k)).2.take
            call.ret.toNat, castSize call.ret)) := by
  intro fuel
  induction fuel with
  | zero =>
    intro est out k call h
    rw [decompress_with_size_loop] at h
    simp only [List.getElem?_nil] at h
    exact Option.noConfusion h
  | succ f ih =>
    intro est out k call h hret
    cases k with
    | zero =>
      rw [loop_first_call E data f est out hE hn] at h
      have hc : call = loop_call E data est out := (Option.some.inj h).symm
      have hr : call.ret = (loop_engine_result E data est out).1 := by rw [hc]; rfl
      rw [hr] at hret ⊢
      rw [loop_step E data f est out hE hn, if_pos hret, loop_buffer]
      simp only [pow_zero, mul_one]
      exact ⟨rfl, trivial⟩
    | succ j =>
      rw [loop_step E data f est out hE hn] at h ⊢
      split_ifs at h ⊢ with h0 h1
      · simp only [List.getElem?_cons_succ, List.getElem?_nil] at h
        exact Option.noConfusion h
      · simp only [List.getElem?_cons_succ, List.getElem?_nil] at h
        exact Option.noConfusion h
      · simp only [List.getElem?_cons_succ] at h
        obtain ⟨hl, hres⟩ := ih (2 * est) _ j call h hret
        have he : 2 * est * 2 ^ j = est * 2 ^ (j + 1) := by ring
        rw [he] at hres
        rw [loop_buffer]
        exact ⟨by simp only [List.length_cons, hl], hres⟩

theorem loop_raise_at_cap (E : CULZ) (data : List U8)
    (hE : E.EXCESS ≤ INT_MAX) (hn : data.length ≤ INT_MAX) :
    ∀ (fuel est : Nat) (out : List U8) (k : Nat) (call : DecompressCall),
      (decompress_with_size_loop E data data.length fuel est out).1[k]? = some call →
      call.ret < 0 → call.out_len = ((INT_MAX - E.EXCESS : Nat) : Int) →
      (decompress_with_size_loop E data data.length fuel est out).1.length = k + 1 ∧
      (decompress_with_size_loop E data data.length fuel est out).2
        = some (.raised .growth_failed) := by
  intro fuel
  induction fuel with
  | zero =>
    intro est out k call h
    rw [decompress_with_size_loop] at h
    simp only [List.getElem?_nil] at h
    exact Option.noConfusion h
  | succ f ih =>
    intro est out k call h hret hout
    cases k with
    | zero =>
      rw [loop_first_call E data f est out hE hn] at h
      have hc : call = loop_call E data est out := (Option.some.inj h).symm
      have hf := loop_call_fields E data est out
      rw [hc, hf.2.2.2] at hret
      rw [hc, hf.2.1] at hout
      simp only [pow_zero, mul_one] at hout
      have hmin : min est (INT_MAX - E.EXCESS) = INT_MAX - E.EXCESS := Int.ofNat.inj hout
      have h0 : ¬ 0 ≤ (loop_engine_result E data est out).1 := by omega
      have h1 : INT_MAX - E.EXCESS ≤ est := by
        rw [← hmin]
        exact Nat.min_le_left _ _
      rw [loop_step E data f est out hE hn, if_neg h0, if_pos h1]
      exact ⟨rfl, rfl⟩
    | succ j =>
      rw [loop_step E data f est out hE hn] at h ⊢
      split_ifs at h ⊢ with h0 h1
      · simp only [List.getElem?_cons_succ, List.getElem?_nil] at h
        exact Option.noConfusion h
      · simp only [List.getElem?_cons_succ, List.getElem?_nil] at h
        exact Option.noConfusion h
      · simp only [List.getElem?_cons_succ] at h
        obtain ⟨hl, hres⟩ := ih (2 * est) _ j call h hret hout
        exact ⟨by simp only [List.length_cons, hl], hres⟩

theorem loop_next (E : CULZ) (data : List U8)
    (hE : E.EXCESS ≤ INT_MAX) (hn : data.length ≤ INT_MAX) :
    ∀ (fuel est : Nat) (out : List U8) (k : Nat) (call : DecompressCall),
      (decompress_with_size_loop E data data.length fuel est out).1[k]? = some call →
      call.ret < 0 → call.out_len < ((INT_MAX - E.EXCESS : Nat) : Int) → k + 1 < fuel →
      ∃ next, (decompress_with_size_loop E data data.length fuel est out).1[k + 1]?
        = some next := by
  intro fuel
  induction fuel with
  | zero =>
    intro est out k call h
    rw [decompress_with_size_loop] at h
    simp only [List.getElem?_nil] at h
    exact Option.noConfusion h
  | succ f ih =>
    intro est out k call h hret hout hfuel
    cases k with
    | zero =>
      obtain ⟨g, rfl⟩ : ∃ g, f = g + 1 := ⟨f - 1, by omega⟩
      rw [loop_first_call E data (g + 1) est out hE hn] at h
      have hc : call = loop_call E data est out := (Option.some.inj h).symm
      have hf := loop_call_fields E data est out
      rw [hc, hf.2.2.2] at hret
      rw [hc, hf.2.1] at hout
      simp only [pow_zero, mul_one] at hout
      have hlt : min est (INT_MAX - E.EXCESS) < INT_MAX - E.EXCESS := Int.ofNat_lt.mp hout
      have h0 : ¬ 0 ≤ (loop_engine_result E data est out).1 := by omega
      have h1 : ¬ INT_MAX - E.EXCESS ≤ est := by
        intro hle
        rw [Nat.min_eq_right hle] at hlt
        exact Nat.lt_irrefl _ hlt
      rw [loop_step E data (g + 1) est out hE hn, if_neg h0, if_neg h1]
      simp only [List.getElem?_cons_succ]
      exact ⟨_, loop_first_call E data g _ _ hE hn⟩
    | succ j =>
      rw [loop_step E data f est out hE hn] at h ⊢
      split_ifs at h ⊢ with h0 h1
      · simp only [List.getElem?_cons_succ, List.getElem?_nil] at h
        exact Option.noConfusion h
      · simp only [List.getElem?_cons_succ, List.getElem?_nil] at h
        exact Option.noConfusion h
      · simp only [List.getElem?_cons_succ] at h ⊢
        exact ih (2 * est) _ j call h hret hout (by omega)

theorem loop_unfinished (E : CULZ) (data : List U8) (n : Nat) :
    ∀ (fuel est : Nat) (out : List U8),
      (decompress_with_size_loop E data n fuel est out).2 = none →
      (decompress_with_size_loop E data n fuel est out).1.length = fuel := by
  intro fuel
  induction fuel with
  | zero =>
    intro est out _
    rw [decompress_with_size_loop]
    rfl
  | succ f ih =>
    intro est out h
    rw [decompress_with_size_loop] at h ⊢
    simp only [] at h ⊢
    split_ifs at h ⊢
    all_goals first
      | exact Option.noConfusion h
      | (simp only [List.length_cons]; exact congrArg Nat.succ (ih _ _ h))

theorem loop_length_le (E : CULZ) (data : List U8) (n : Nat) :
    ∀ (fuel est : Nat) (out : List U8),
      (decompress_with_size_loop E data n fuel est out).1.length ≤ fuel := by
  intro fuel
  induction fuel with
  | zero =>
    intro est out
    rw [decompress_with_size_loop]
    exact Nat.le_refl _
  | succ f ih =>
    intro est out
    rw [decompress_with_size_loop]
    simp only []
    split_ifs <;>
      first
      | (simp only [List.length_singleton]; omega)
      | (simp only [List.length_cons]; exact Nat.succ_le_succ (ih _ _))

theorem loop_recovers (E : CULZ) (c b : List U8)
    (hE : E.EXCESS ≤ INT_MAX) (hb : b.length ≤ INT_MAX - E.EXCESS)
    (hcb : IsCompressedForm E c b) :
    ∀ (fuel est : Nat) (out : List U8), b.length ≤ est * 2 ^ fuel →
      (decompress_with_size_loop E c c.length (fuel + 1) est out).2
        = some (.returned (b, b.length)) := by
  have hn := hcb.1
  have key : ∀ (est : Nat) (out : List U8),
      (b.length ≤ capped E est →
        (loop_engine_result E c est out).1 = b.length ∧
        (loop_engine_result E c est out).2.take b.length = b) ∧
      (capped E est < b.length → (loop_engine_result E c est out).1 < 0) := by
    intro est out
    unfold loop_engine_result
    exact hcb.2 (resize out (capped E est + E.EXCESS)) (capped E est)
      (by rw [length_resize])
  have hdone : ∀ (f est : Nat) (out : List U8), b.length ≤ capped E est →
      (decompress_with_size_loop E c c.length (f + 1) est out).2
        = some (.returned (b, b.length)) := by
    intro f est out hle
    obtain ⟨h1, h2⟩ := (key est out).1 hle
    have h0 : 0 ≤ (loop_engine_result E c est out).1 := by omega
    have hcs : castSize (b.length : Int) = b.length := by
      unfold castSize
      unfold INT_MAX at hb
      omega
    rw [loop_step E c f est out hE hn, if_pos h0]
    simp only [h1, Int.toNat_ofNat, h2, hcs]
  intro fuel
  induction fuel with
  | zero =>
    intro est out h
    simp only [pow_zero, mul_one] at h
    apply hdone
    unfold capped
    omega
  | succ f ih =>
    intro est out h
    by_cases hle : b.length ≤ capped E est
    · exact hdone _ est out hle
    · have hneg := (key est out).2 (by omega)
      have h0 : ¬ 0 ≤ (loop_engine_result E c est out).1 := by omega
      have h1 : ¬ INT_MAX - E.EXCESS ≤ est := by
        unfold capped at hle
        omega
      rw [loop_step E c (f + 1) est out hE hn]
      simp only [h0, h1, if_false]
      apply ih
      have he : 2 * est * 2 ^ f = est * 2 ^ (f + 1) := by ring
      rw [he]
      exact h

theorem loop_fuel_mono (E : CULZ) (data : List U8) (n : Nat) :
    ∀ (f est : Nat) (out : List U8),
      (decompress_with_size_loop E data n f est out).2 ≠ none →
      ∀ g, f ≤ g →
        decompress_with_size_loop E data n g est out
          = decompress_with_size_loop E data n f est out := by
  intro f
  induction f with
  | zero =>
    intro est out h
    rw [decompress_with_size_loop] at h
    exact absurd rfl h
  | succ f ih =>
    intro est out h g hg
    obtain ⟨g, rfl⟩ : ∃ j, g = j + 1 := ⟨g - 1, by omega⟩
    rw [decompress_with_size_loop] at h
    conv_lhs => rw [decompress_with_size_loop]
    conv_rhs => rw [decompress_with_size_loop]
    simp only [] at h ⊢
    split_ifs at h ⊢
    all_goals first
      | rfl
      | rw [ih _ _ h g (by omega)]

theorem with_size_of_too_long (E : CULZ) (fuel : Nat) (data : List U8)
    (hn : INT_MAX < data.length) :
    decompress_with_size E fuel data = ([], some (.raised .input_too_large)) := by
  have hsz : data.length > castSize (INT_MAX : Int) := by
    rw [castSize_INT_MAX]; omega
  unfold decompress_with_size
  simp only [hsz, if_true]

theorem with_size_eq_loop (E : CULZ) (fuel : Nat) (data : List U8)
    (hn : data.length ≤ INT_MAX) :
    decompress_with_size E fuel data
      = decompress_with_size_loop E data data.length fuel (4 * data.length) [] := by
  have hsz : ¬ (data.length > castSize (INT_MAX : Int)) := by
    rw [castSize_INT_MAX]; omega
  unfold decompress_with_size
  simp only [hsz, if_false, mul64_four _ hn]

theorem pow_bound (n f : Nat) (hn : 0 < n) (hf : 29 ≤ f) : INT_MAX ≤ 4 * n * 2 ^ f := by
  have h2 : 2 ^ 29 ≤ 2 ^ f := Nat.pow_le_pow_right (by decide) hf
  have h4 : 4 ≤ 4 * n := by omega
  have h := Nat.mul_le_mul h4 h2
  have hc : INT_MAX ≤ 4 * 2 ^ 29 := by decide
  exact Nat.le_trans hc h

theorem refusing_loop (fuel : Nat) :
    ∀ out : List U8,
      decompress_with_size_loop refusingEngine [] 0 fuel 0 out
        = (List.replicate fuel ⟨0, 16, 0, -1⟩, none) := by
  induction fuel with
  | zero =>
    intro out
    rw [decompress_with_size_loop]
    rfl
  | succ f ih =>
    intro out
    have hstep := loop_step refusingEngine [] f 0 out (by decide) (by decide)
    have hr : (loop_engine_result refusingEngine [] 0 out).1 = -1 := rfl
    have hcall : loop_call refusingEngine [] 0 out = ⟨0, 16, 0, -1⟩ := rfl
    have hlen : ([] : List U8).length = 0 := rfl
    rw [hlen] at hstep
    rw [hstep, hr, if_neg (by decide), if_neg (by decide), hcall]
    have hz : 2 * 0 = 0 := rfl
    rw [hz, ih]
    rfl

end PyULZ

/-! ## Claims about `compress` -/

/-- C3 (input validation of `PyULZ::compress`): with `EXCESS` an `int` constant
(`EXCESS <= INT_MAX`), the call makes no engine call exactly when `level < 1`, `level > 9`
or `len(data) > INT_MAX - EXCESS`; a level out of range raises the level error whatever the
length of the data; a level in range with too long data raises the size error; for every
other `(data, level)` the engine is called exactly once, with `in_len = len(data)`, an output
vector of exactly `len(data) + EXCESS` bytes and the same level. -/
theorem compress_input_validation (E : CULZ) (data : List U8) (level : Int)
    (hE : E.EXCESS ≤ INT_MAX) :
    ((PyULZ.compress E data level).1 = [] ↔
      (level < 1 ∨ level > 9 ∨ data.length > INT_MAX - E.EXCESS)) ∧
    ((level < 1 ∨ level > 9) →
      PyULZ.compress E data level = ([], .raised .level_out_of_range)) ∧
    (1 ≤ level → level ≤ 9 → data.length > INT_MAX - E.EXCESS →
      PyULZ.compress E data level = ([], .raised .compress_input_too_large)) ∧
    (1 ≤ level → level ≤ 9 → data.length ≤ INT_MAX - E.EXCESS →
      (PyULZ.compress E data level).1 =
        [⟨data.length, data.length + E.EXCESS, level,
          (compress_engine_result E data level).1⟩]) := by
  have hbad := PyULZ.compress_of_bad_level E data level
  have hlong := PyULZ.compress_of_too_long E data level hE
  have hvalid := PyULZ.compress_calls_of_valid E data level hE
  refine ⟨?_, hbad, hlong, hvalid⟩
  constructor
  · intro hnil
    by_contra hcon
    have h := hvalid (by omega) (by omega) (by omega)
    rw [hnil] at h
    exact List.noConfusion h
  · intro h
    by_cases hl : level < 1 ∨ level > 9
    · rw [hbad hl]
    · rw [hlong (by omega) (by omega) (by omega)]

/-- Witness of C3 at the run engine, the data `1, 2, 3` and level 5. -/
theorem compress_input_validation_witness :
    runEngine.EXCESS ≤ INT_MAX ∧
    (((PyULZ.compress runEngine [1, 2, 3] 5).1 = [] ↔
      ((5 : Int) < 1 ∨ (5 : Int) > 9 ∨ [(1 : U8), 2, 3].length > INT_MAX - runEngine.EXCESS)) ∧
    (((5 : Int) < 1 ∨ (5 : Int) > 9) →
      PyULZ.compress runEngine [1, 2, 3] 5 = ([], .raised .level_out_of_range)) ∧
    ((1 : Int) ≤ 5 → (5 : Int) ≤ 9 → [(1 : U8), 2, 3].length > INT_MAX - runEngine.EXCESS →
      PyULZ.compress runEngine [1, 2, 3] 5 = ([], .raised .compress_input_too_large)) ∧
    ((1 : Int) ≤ 5 → (5 : Int) ≤ 9 → [(1 : U8), 2, 3].length ≤ INT_MAX - runEngine.EXCESS →
      (PyULZ.compress runEngine [1, 2, 3] 5).1 =
        [⟨[(1 : U8), 2, 3].length, [(1 : U8), 2, 3].length + runEngine.EXCESS, 5,
          (compress_engine_result runEngine [1, 2, 3] 5).1⟩])) :=
  ⟨by decide, compress_input_validation runEngine [1, 2, 3] 5 (by decide)⟩

/-- C2 (worst-case bound of `PyULZ::compress`): with `EXCESS <= INT_MAX`, the call returns
the byte string `r` exactly when the level and the length pass the guards, the engine gave
back a size in `[0, len(data) + EXCESS]` and `r` is the first `compressed_size` bytes of the
output vector after the engine call; so a negative or over-sized `compressed_size` never
returns, and every returned byte string has length at most `len(data) + EXCESS`. -/
theorem compress_worst_case_bound (E : CULZ) (data : List U8) (level : Int) (r : List U8)
    (hE : E.EXCESS ≤ INT_MAX) :
    ((PyULZ.compress E data level).2 = .returned r ↔
      (1 ≤ level ∧ level ≤ 9 ∧ data.length ≤ INT_MAX - E.EXCESS ∧
        0 ≤ (compress_engine_result E data level).1 ∧
        (compress_engine_result E data level).1 ≤ ((data.length + E.EXCESS : Nat) : Int) ∧
        r = (compress_engine_result E data level).2.take
          (compress_engine_result E data level).1.toNat)) ∧
    ((PyULZ.compress E data level).2 = .returned r → r.length ≤ data.length + E.EXCESS) := by
  have key : (PyULZ.compress E data level).2 = .returned r ↔
      (1 ≤ level ∧ level ≤ 9 ∧ data.length ≤ INT_MAX - E.EXCESS ∧
        0 ≤ (compress_engine_result E data level).1 ∧
        (compress_engine_result E data level).1 ≤ ((data.length + E.EXCESS : Nat) : Int) ∧
        r = (compress_engine_result E data level).2.take
          (compress_engine_result E data level).1.toNat) := by
    by_cases hl : level < 1 ∨ level > 9
    · rw [PyULZ.compress_of_bad_level E data level hl]
      constructor
      · intro h; cases h
      · intro h; omega
    · by_cases hn : INT_MAX - E.EXCESS < data.length
      · rw [PyULZ.compress_of_too_long E data level hE (by omega) (by omega) hn]
        constructor
        · intro h; cases h
        · intro h; omega
      · rw [PyULZ.compress_of_valid E data level hE (by omega) (by omega) (by omega)]
        split_ifs with hneg hbig
        · constructor
          · intro h; cases h
          · intro h; omega
        · constructor
          · intro h; cases h
          · intro h; omega
        · constructor
          · intro h
            injection h with h
            exact ⟨by omega, by omega, by omega, by omega, by omega, h.symm⟩
          · intro h
            rw [h.2.2.2.2.2]
  refine ⟨key, ?_⟩
  intro h
  obtain ⟨_, _, _, h0, hle, hr⟩ := key.mp h
  rw [hr, List.length_take]
  omega

/-- Witness of C2 at the run engine, a run of one hundred bytes `65` and level 5, which
compresses to the three bytes `1, 100, 65`. -/
theorem compress_worst_case_bound_witness :
    runEngine.EXCESS ≤ INT_MAX ∧
    (((PyULZ.compress runEngine (List.replicate 100 65) 5).2 = .returned [1, 100, 65] ↔
      ((1 : Int) ≤ 5 ∧ (5 : Int) ≤ 9 ∧
        (List.replicate 100 (65 : U8)).length ≤ INT_MAX - runEngine.EXCESS ∧
        0 ≤ (compress_engine_result runEngine (List.replicate 100 65) 5).1 ∧
        (compress_engine_result runEngine (List.replicate 100 65) 5).1
          ≤ (((List.replicate 100 (65 : U8)).length + runEngine.EXCESS : Nat) : Int) ∧
        [1, 100, 65] = (compress_engine_result runEngine (List.replicate 100 65) 5).2.take
          (compress_engine_result runEngine (List.replicate 100 65) 5).1.toNat)) ∧
    ((PyULZ.compress runEngine (List.replicate 100 65) 5).2 = .returned [1, 100, 65] →
      [(1 : U8), 100, 65].length ≤ (List.replicate 100 (65 : U8)).length + runEngine.EXCESS)) :=
  ⟨by decide, compress_worst_case_bound runEngine (List.replicate 100 65) 5 [1, 100, 65]
    (by decide)⟩

/-! ## Claims about `decompress` -/

/-- C9 (capacity choice of `PyULZ::decompress`): with `EXCESS <= INT_MAX`, the chosen
capacity is `original_size` when the hint is positive and `4 * n` when it is 0; the call
makes no engine call exactly when `n > INT_MAX` or the chosen capacity exceeds
`INT_MAX - EXCESS`, and it raises in both cases; otherwise the engine is called exactly once
with `in_len = n`, `out_len` the chosen capacity and an output vector of `out_len + EXCESS`
bytes; with hint 0 every input longer than `(INT_MAX - EXCESS) / 4` is rejected without an
engine call. -/
theorem decompress_capacity_choice (E : CULZ) (data : List U8) (original_size : Nat)
    (hE : E.EXCESS ≤ INT_MAX) :
    (0 < original_size → chosen_capacity data.length original_size = original_size) ∧
    (original_size = 0 → chosen_capacity data.length original_size = 4 * data.length) ∧
    ((PyULZ.decompress E data original_size).1 = [] ↔
      (data.length > INT_MAX ∨
        chosen_capacity data.length original_size > INT_MAX - E.EXCESS)) ∧
    (data.length > INT_MAX →
      PyULZ.decompress E data original_size = ([], .raised .input_too_large)) ∧
    (data.length ≤ INT_MAX →
      chosen_capacity data.length original_size > INT_MAX - E.EXCESS →
      PyULZ.decompress E data original_size = ([], .raised .estimated_too_large)) ∧
    (data.length ≤ INT_MAX →
      chosen_capacity data.length original_size ≤ INT_MAX - E.EXCESS →
      (PyULZ.decompress E data original_size).1 =
        [⟨data.length, chosen_capacity data.length original_size + E.EXCESS,
          (chosen_capacity data.length original_size : Nat),
          (decompress_engine_result E data original_size).1⟩]) ∧
    (original_size = 0 → data.length > (INT_MAX - E.EXCESS) / 4 →
      (PyULZ.decompress E data original_size).1 = [] ∧
      ∃ e, (PyULZ.decompress E data original_size).2 = .raised e) := by
  have hpos : 0 < original_size → chosen_capacity data.length original_size = original_size := by
    intro h
    unfold chosen_capacity
    simp only [gt_iff_lt, h, if_true]
  have hzero : original_size = 0 →
      chosen_capacity data.length original_size = 4 * data.length := by
    intro h
    unfold chosen_capacity
    simp only [h, gt_iff_lt, lt_self_iff_false, if_false]
  have hlong := PyULZ.decompress_of_too_long E data original_size
  have hbig := PyULZ.decompress_of_large_estimate E data original_size hE
  have hvalid := PyULZ.decompress_calls_of_valid E data original_size hE
  have hiff : (PyULZ.decompress E data original_size).1 = [] ↔
      (data.length > INT_MAX ∨
        chosen_capacity data.length original_size > INT_MAX - E.EXCESS) := by
    constructor
    · intro hnil
      by_contra hcon
      have h := hvalid (by omega) (by omega)
      rw [hnil] at h
      exact List.noConfusion h
    · intro h
      by_cases hn : data.length > INT_MAX
      · rw [hlong hn]
      · rw [hbig (by omega) (by omega)]
  refine ⟨hpos, hzero, hiff, hlong, hbig, hvalid, ?_⟩
  intro h0 hn
  have hc := hzero h0
  by_cases hn2 : data.length > INT_MAX
  · rw [hlong hn2]
    exact ⟨rfl, _, rfl⟩
  · rw [hbig (by omega) (by omega)]
    exact ⟨rfl, _, rfl⟩

/-- Witness of C9 at the run engine, the compressed bytes `1, 100, 65` and hint 0. -/
theorem decompress_capacity_choice_witness :
    runEngine.EXCESS ≤ INT_MAX ∧
    ((0 < 0 → chosen_capacity [(1 : U8), 100, 65].length 0 = 0) ∧
    (0 = 0 → chosen_capacity [(1 : U8), 100, 65].length 0 = 4 * [(1 : U8), 100, 65].length) ∧
    ((PyULZ.decompress runEngine [1, 100, 65] 0).1 = [] ↔
      ([(1 : U8), 100, 65].length > INT_MAX ∨
        chosen_capacity [(1 : U8), 100, 65].length 0 > INT_MAX - runEngine.EXCESS)) ∧
    ([(1 : U8), 100, 65].length > INT_MAX →
      PyULZ.decompress runEngine [1, 100, 65] 0 = ([], .raised .input_too_large)) ∧
    ([(1 : U8), 100, 65].length ≤ INT_MAX →
      chosen_capacity [(1 : U8), 100, 65].length 0 > INT_MAX - runEngine.EXCESS →
      PyULZ.decompress runEngine [1, 100, 65] 0 = ([], .raised .estimated_too_large)) ∧
    ([(1 : U8), 100, 65].length ≤ INT_MAX →
      chosen_capacity [(1 : U8), 100, 65].length 0 ≤ INT_MAX - runEngine.EXCESS →
      (PyULZ.decompress runEngine [1, 100, 65] 0).1 =
        [⟨[(1 : U8), 100, 65].length,
          chosen_capacity [(1 : U8), 100, 65].length 0 + runEngine.EXCESS,
          (chosen_capacity [(1 : U8), 100, 65].length 0 : Nat),
          (decompress_engine_result runEngine [1, 100, 65] 0).1⟩]) ∧
    (0 = 0 → [(1 : U8), 100, 65].length > (INT_MAX - runEngine.EXCESS) / 4 →
      (PyULZ.decompress runEngine [1, 100, 65] 0).1 = [] ∧
      ∃ e, (PyULZ.decompress runEngine [1, 100, 65] 0).2 = .raised e)) :=
  ⟨by decide, decompress_capacity_choice runEngine [1, 100, 65] 0 (by decide)⟩

/-- C8 (capacity rejection in `PyULZ::decompress`): with `EXCESS <= INT_MAX`, for every
compressed input, every hint and every engine, once the guards are passed the call raises
whenever the engine returns a negative value or a value greater than the chosen capacity;
the call returns the byte string `r` exactly when the guards are passed, the engine gave back
a size in `[0, capacity]` and `r` is the first `decompressed_size` bytes of the output vector
after the engine call; every returned byte string has length at most the capacity. -/
theorem decompress_capacity_rejection (E : CULZ) (data : List U8) (original_size : Nat)
    (r : List U8) (hE : E.EXCESS ≤ INT_MAX) :
    (data.length ≤ INT_MAX →
      chosen_capacity data.length original_size ≤ INT_MAX - E.EXCESS →
      (decompress_engine_result E data original_size).1 < 0 →
      (PyULZ.decompress E data original_size).2 = .raised .decompression_failed) ∧
    (data.length ≤ INT_MAX →
      chosen_capacity data.length original_size ≤ INT_MAX - E.EXCESS →
      (decompress_engine_result E data original_size).1
        > ((chosen_capacity data.length original_size : Nat) : Int) →
      (PyULZ.decompress E data original_size).2 = .raised .decompressed_exceeds_estimate) ∧
    ((PyULZ.decompress E data original_size).2 = .returned r ↔
      (data.length ≤ INT_MAX ∧
        chosen_capacity data.length original_size ≤ INT_MAX - E.EXCESS ∧
        0 ≤ (decompress_engine_result E data original_size).1 ∧
        (decompress_engine_result E data original_size).1
          ≤ ((chosen_capacity data.length original_size : Nat) : Int) ∧
        r = (decompress_engine_result E data original_size).2.take
          (decompress_engine_result E data original_size).1.toNat)) ∧
    ((PyULZ.decompress E data original_size).2 = .returned r →
      r.length ≤ chosen_capacity data.length original_size) := by
  have hneg : data.length ≤ INT_MAX →
      chosen_capacity data.length original_size ≤ INT_MAX - E.EXCESS →
      (decompress_engine_result E data original_size).1 < 0 →
      (PyULZ.decompress E data original_size).2 = .raised .decompression_failed := by
    intro hn hcap h
    rw [PyULZ.decompress_of_valid E data original_size hE hn hcap]
    simp only [h, if_true]
  have hover : data.length ≤ INT_MAX →
      chosen_capacity data.length original_size ≤ INT_MAX - E.EXCESS →
      (decompress_engine_result E data original_size).1
        > ((chosen_capacity data.length original_size : Nat) : Int) →
      (PyULZ.decompress E data original_size).2 = .raised .decompressed_exceeds_estimate := by
    intro hn hcap h
    have h0 : ¬ (decompress_engine_result E data original_size).1 < 0 := by omega
    rw [PyULZ.decompress_of_valid E data original_size hE hn hcap]
    simp only [h0, h, if_true, if_false]
  have key : (PyULZ.decompress E data original_size).2 = .returned r ↔
      (data.length ≤ INT_MAX ∧
        chosen_capacity data.length original_size ≤ INT_MAX - E.EXCESS ∧
        0 ≤ (decompress_engine_result E data original_size).1 ∧
        (decompress_engine_result E data original_size).1
          ≤ ((chosen_capacity data.length original_size : Nat) : Int) ∧
        r = (decompress_engine_result E data original_size).2.take
          (decompress_engine_result E data original_size).1.toNat) := by
    by_cases hn : INT_MAX < data.length
    · rw [PyULZ.decompress_of_too_long E data original_size hn]
      constructor
      · intro h; cases h
      · intro h; omega
    · by_cases hcap : INT_MAX - E.EXCESS < chosen_capacity data.length original_size
      · rw [PyULZ.decompress_of_large_estimate E data original_size hE (by omega) hcap]
        constructor
        · intro h; cases h
        · intro h; omega
      · rw [PyULZ.decompress_of_valid E data original_size hE (by omega) (by omega)]
        split_ifs with h1 h2
        · constructor
          · intro h; cases h
          · intro h; omega
        · constructor
          · intro h; cases h
          · intro h; omega
        · constructor
          · intro h
            injection h with h
            exact ⟨by omega, by omega, by omega, by omega, h.symm⟩
          · intro h
            rw [h.2.2.2.2]
  refine ⟨hneg, hover, key, ?_⟩
  intro h
  obtain ⟨_, _, h0, hle, hr⟩ := key.mp h
  rw [hr, List.length_take]
  omega

/-- Witness of C8 at the run engine, the compressed bytes `1, 3, 65`, hint 0 and the returned
bytes `65, 65, 65`. -/
theorem decompress_capacity_rejection_witness :
    runEngine.EXCESS ≤ INT_MAX ∧
    (([(1 : U8), 3, 65].length ≤ INT_MAX →
      chosen_capacity [(1 : U8), 3, 65].length 0 ≤ INT_MAX - runEngine.EXCESS →
      (decompress_engine_result runEngine [1, 3, 65] 0).1 < 0 →
      (PyULZ.decompress runEngine [1, 3, 65] 0).2 = .raised .decompression_failed) ∧
    ([(1 : U8), 3, 65].length ≤ INT_MAX →
      chosen_capacity [(1 : U8), 3, 65].length 0 ≤ INT_MAX - runEngine.EXCESS →
      (decompress_engine_result runEngine [1, 3, 65] 0).1
        > ((chosen_capacity [(1 : U8), 3, 65].length 0 : Nat) : Int) →
      (PyULZ.decompress runEngine [1, 3, 65] 0).2 = .raised .decompressed_exceeds_estimate) ∧
    ((PyULZ.decompress runEngine [1, 3, 65] 0).2 = .returned [65, 65, 65] ↔
      ([(1 : U8), 3, 65].length ≤ INT_MAX ∧
        chosen_capacity [(1 : U8), 3, 65].length 0 ≤ INT_MAX - runEngine.EXCESS ∧
        0 ≤ (decompress_engine_result runEngine [1, 3, 65] 0).1 ∧
        (decompress_engine_result runEngine [1, 3, 65] 0).1
          ≤ ((chosen_capacity [(1 : U8), 3, 65].length 0 : Nat) : Int) ∧
        [65, 65, 65] = (decompress_engine_result runEngine [1, 3, 65] 0).2.take
          (decompress_engine_result runEngine [1, 3, 65] 0).1.toNat)) ∧
    ((PyULZ.decompress runEngine [1, 3, 65] 0).2 = .returned [65, 65, 65] →
      [(65 : U8), 65, 65].length ≤ chosen_capacity [(1 : U8), 3, 65].length 0)) :=
  ⟨by decide, decompress_capacity_rejection runEngine [1, 3, 65] 0 [65, 65, 65] (by decide)⟩

/-- C1, the code at the failing input: the run engine meets the contract and `compress`
turns one hundred bytes `65` into the three bytes `1, 100, 65`; `decompress` of these bytes
with the default `original_size = 0` makes one engine call at capacity 12 and raises instead
of returning the hundred bytes, while the same bytes decode to the original both through
`decompress` with the hint 100 and through `decompress_with_size`. -/
theorem roundtrip_default_hint_raises :
    MeetsContract runEngine ∧
    (List.replicate 100 (65 : U8)).length ≤ INT_MAX - runEngine.EXCESS ∧
    (PyULZ.compress runEngine (List.replicate 100 65) 5).2 = .returned [1, 100, 65] ∧
    PyULZ.decompress runEngine [1, 100, 65] 0
      = ([⟨3, 28, 12, -1⟩], .raised .decompression_failed) ∧
    (PyULZ.decompress runEngine [1, 100, 65] 100).2 = .returned (List.replicate 100 65) ∧
    (PyULZ.decompress_with_size runEngine 30 [1, 100, 65]).2
      = some (.returned (List.replicate 100 65, 100)) :=
  ⟨runEngine_meets_contract, by decide, by decide, by decide, by decide, by decide⟩

/-- Reach of the default hint: with `EXCESS <= INT_MAX` and an engine that meets its
contract, for every `b` with `len(b) <= INT_MAX - EXCESS` and every level in `[1,9]`,
`compress(b, level)` returns a compressed form `c` of `b`; `decompress(c)` with
`original_size = 0` returns `b` when `len(b) <= 4 * len(c) <= INT_MAX - EXCESS`, raises after
its single engine call when `len(b) > 4 * len(c)`, and raises without an engine call when
`4 * len(c) > INT_MAX - EXCESS`. -/
theorem roundtrip_default_hint (E : CULZ) (b : List U8) (level : Int)
    (hE : E.EXCESS ≤ INT_MAX) (hC : MeetsContract E)
    (hb : b.length ≤ INT_MAX - E.EXCESS) (h1 : 1 ≤ level) (h9 : level ≤ 9) :
    ∃ c, (PyULZ.compress E b level).2 = .returned c ∧ IsCompressedForm E c b ∧
      (b.length ≤ 4 * c.length → 4 * c.length ≤ INT_MAX - E.EXCESS →
        (PyULZ.decompress E c 0).2 = .returned b) ∧
      (4 * c.length < b.length → 4 * c.length ≤ INT_MAX - E.EXCESS →
        (PyULZ.decompress E c 0).2 = .raised .decompression_failed ∧
        (PyULZ.decompress E c 0).1.length = 1) ∧
      (INT_MAX - E.EXCESS < 4 * c.length →
        PyULZ.decompress E c 0 = ([], .raised .estimated_too_large)) := by
  have hsum : b.length + E.EXCESS ≤ INT_MAX := by omega
  obtain ⟨h0, hle, hform⟩ := hC b (List.replicate (b.length + E.EXCESS) 0) level h1 h9 hsum
    (by rw [List.length_replicate])
  have hcomp := PyULZ.compress_of_valid E b level hE h1 h9 hb
  have hr : compress_engine_result E b level
      = E.Compress b b.length (List.replicate (b.length + E.EXCESS) 0) level := rfl
  rw [hr, if_neg (by omega), if_neg (by omega)] at hcomp
  refine ⟨_, by rw [hcomp], hform, ?_, ?_, ?_⟩
  · intro hfit hcap
    have hcc : chosen_capacity
        ((E.Compress b b.length (List.replicate (b.length + E.EXCESS) 0) level).2.take
          (E.Compress b b.length (List.replicate (b.length + E.EXCESS) 0) level).1.toNat).length 0
        = 4 * ((E.Compress b b.length (List.replicate (b.length + E.EXCESS) 0) level).2.take
          (E.Compress b b.length (List.replicate (b.length + E.EXCESS) 0) level).1.toNat).length :=
      rfl
    have hd := PyULZ.decompress_of_valid E _ 0 hE hform.1 (by rw [hcc]; exact hcap)
    obtain ⟨hret, htake⟩ := (hform.2 (List.replicate (4 * _ + E.EXCESS) 0) (4 * _)
      (by rw [List.length_replicate])).1 hfit
    have hres : decompress_engine_result E
        ((E.Compress b b.length (List.replicate (b.length + E.EXCESS) 0) level).2.take
          (E.Compress b b.length (List.replicate (b.length + E.EXCESS) 0) level).1.toNat) 0
        = E.Decompress _ _ (List.replicate (4 * _ + E.EXCESS) 0) ((4 * _ : Nat) : Int) := rfl
    rw [hres, hcc, hret, if_neg (by omega), if_neg (by omega)] at hd
    rw [hd]
    simp only [Int.toNat_ofNat, htake]
  · intro hsmall hcap
    have hneg := (hform.2 (List.replicate (4 * _ + E.EXCESS) 0) (4 * _)
      (by rw [List.length_replicate])).2 hsmall
    rw [PyULZ.decompress_of_engine_failure E _ hE hform.1 hcap hneg]
    exact ⟨rfl, rfl⟩
  · intro hbig
    exact PyULZ.decompress_of_large_estimate E _ 0 hE hform.1 hbig

/-! ## Claims about `decompress_with_size` -/

/-- C4 (growth retry recovers the original): with `EXCESS <= INT_MAX`, for every `b` with
`len(b) <= INT_MAX - EXCESS` and every non-empty compressed form `c` of `b`,
`decompress_with_size(c)` returns the pair `(b, len(b))`, whose second component is the length
of the first, whatever the ratio of `len(b)` to the first guess `4 * len(c)`: fuel for 30
rounds of the loop is enough, more fuel gives the same run, and at most 30 engine calls are
made. -/
theorem decompress_with_size_recovers (E : CULZ) (c b : List U8) (fuel : Nat)
    (hE : E.EXCESS ≤ INT_MAX) (hb : b.length ≤ INT_MAX - E.EXCESS) (hc : c ≠ [])
    (hcb : IsCompressedForm E c b) (hfuel : 30 ≤ fuel) :
    (PyULZ.decompress_with_size E fuel c).2 = some (.returned (b, b.length)) ∧
    (PyULZ.decompress_with_size E fuel c).1.length ≤ 30 := by
  have hn := hcb.1
  have hpos : 0 < c.length := List.length_pos.mpr hc
  have h30 : (PyULZ.decompress_with_size_loop E c c.length (29 + 1) (4 * c.length) []).2
      = some (.returned (b, b.length)) := by
    apply PyULZ.loop_recovers E c b hE hb hcb
    have := PyULZ.pow_bound c.length 29 hpos (Nat.le_refl _)
    omega
  have hmono := PyULZ.loop_fuel_mono E c c.length 30 (4 * c.length) []
    (by rw [h30]; exact Option.some_ne_none _) fuel hfuel
  rw [PyULZ.with_size_eq_loop E fuel c hn, hmono]
  exact ⟨h30, PyULZ.loop_length_le E c c.length 30 _ _⟩

/-- Witness of C4 at the run engine: the three bytes `1, 100, 65` are a compressed form of
one hundred bytes `65`, far more than the first guess of 12 bytes. -/
theorem decompress_with_size_recovers_witness :
    runEngine.EXCESS ≤ INT_MAX ∧
    (List.replicate 100 (65 : U8)).length ≤ INT_MAX - runEngine.EXCESS ∧
    [(1 : U8), 100, 65] ≠ [] ∧
    IsCompressedForm runEngine [1, 100, 65] (List.replicate 100 65) ∧ 30 ≤ 40 ∧
    ((PyULZ.decompress_with_size runEngine 40 [1, 100, 65]).2
      = some (.returned (List.replicate 100 65, (List.replicate 100 (65 : U8)).length)) ∧
    (PyULZ.decompress_with_size runEngine 40 [1, 100, 65]).1.length ≤ 30) :=
  ⟨by decide, by decide, by decide,
    runEngine_form [1, 100, 65] (List.replicate 100 65) (by decide) (by decide), by decide,
    decompress_with_size_recovers runEngine [1, 100, 65] (List.replicate 100 65) 40
      (by decide) (by decide) (by decide)
      (runEngine_form [1, 100, 65] (List.replicate 100 65) (by decide) (by decide))
      (by decide)⟩

/-- C5, the code at the failing input: on the empty byte string, with an engine that fails
on it, the loop of `decompress_with_size` never ends.  With any fuel the run is still inside
the loop when the fuel is spent, and every round has repeated the same engine call with
`out_len = 0`, because the estimate `0 * 4 = 0` stays 0 when doubled. -/
theorem decompress_with_size_empty_never_ends (fuel : Nat) :
    PyULZ.decompress_with_size refusingEngine fuel []
      = (List.replicate fuel ⟨0, 16, 0, -1⟩, none) := by
  rw [PyULZ.with_size_eq_loop refusingEngine fuel [] (by decide)]
  exact PyULZ.refusing_loop fuel []

/-- C6 (capacity schedule of `PyULZ::decompress_with_size`): with `EXCESS <= INT_MAX` and a
compressed input of length `n <= INT_MAX`, in a run with any fuel:
the first engine call is made (given fuel for one round), on a zeroed vector, with
`out_len = min(4 * n, INT_MAX - EXCESS)`;
the `k`-th engine call is the call of round `k` on the vector the earlier rounds left, with
`in_len = n`, `out_len = min(4 * n * 2^k, INT_MAX - EXCESS)` and a vector of
`out_len + EXCESS` bytes;
a call that returns a non-negative value is the last one and the run returns the first
`decompressed_size` bytes with that size;
a call that fails with `out_len = INT_MAX - EXCESS` is the last one and the run raises the
terminal failure;
a call that fails with `out_len < INT_MAX - EXCESS` is followed (fuel permitting) by a call
with the doubled, capped `out_len`;
conversely a call followed by a further call returned a negative value below the cap, and a
raise is the terminal failure after a failed call at the cap;
the run is unfinished only when every unit of fuel was spent on an engine call, and for a
non-empty input fuel for 30 rounds is enough for the run to end. -/
theorem decompress_with_size_schedule (E : CULZ) (data : List U8) (fuel : Nat)
    (hE : E.EXCESS ≤ INT_MAX) (hn : data.length ≤ INT_MAX) :
    (1 ≤ fuel →
      (PyULZ.decompress_with_size E fuel data).1[0]? = some
        ⟨data.length, min (4 * data.length) (INT_MAX - E.EXCESS) + E.EXCESS,
          ((min (4 * data.length) (INT_MAX - E.EXCESS) : Nat) : Int),
          (E.Decompress data data.length
            (List.replicate (min (4 * data.length) (INT_MAX - E.EXCESS) + E.EXCESS) 0)
            ((min (4 * data.length) (INT_MAX - E.EXCESS) : Nat) : Int)).1⟩) ∧
    (∀ (k : Nat) (call : DecompressCall),
      (PyULZ.decompress_with_size E fuel data).1[k]? = some call →
      call = loop_call E data (4 * data.length * 2 ^ k)
        (loop_buffer E data (4 * data.length) [] k) ∧
      call.in_len = data.length ∧
      call.out_len = ((min (4 * data.length * 2 ^ k) (INT_MAX - E.EXCESS) : Nat) : Int) ∧
      call.buf_size = min (4 * data.length * 2 ^ k) (INT_MAX - E.EXCESS) + E.EXCESS) ∧
    (∀ (k : Nat) (call : DecompressCall),
      (PyULZ.decompress_with_size E fuel data).1[k]? = some call → 0 ≤ call.ret →
      (PyULZ.decompress_with_size E fuel data).1.length = k + 1 ∧
      (PyULZ.decompress_with_size E fuel data).2 = some (.returned
        ((loop_engine_result E data (4 * data.length * 2 ^ k)
          (loop_buffer E data (4 * data.length) [] k)).2.take call.ret.toNat,
          castSize call.ret))) ∧
    (∀ (k : Nat) (call : DecompressCall),
      (PyULZ.decompress_with_size E fuel data).1[k]? = some call → call.ret < 0 →
      call.out_len = (((INT_MAX - E.EXCESS) : Nat) : Int) →
      (PyULZ.decompress_with_size E fuel data).1.length = k + 1 ∧
      (PyULZ.decompress_with_size E fuel data).2 = some (.raised .growth_failed)) ∧
    (∀ (k : Nat) (call : DecompressCall),
      (PyULZ.decompress_with_size E fuel data).1[k]? = some call → call.ret < 0 →
      call.out_len < (((INT_MAX - E.EXCESS) : Nat) : Int) → k + 1 < fuel →
      ∃ next, (PyULZ.decompress_with_size E fuel data).1[k + 1]? = some next ∧
        next.out_len = ((min (2 * call.out_len.toNat) (INT_MAX - E.EXCESS) : Nat) : Int)) ∧
    (∀ (k : Nat) (call : DecompressCall),
      (PyULZ.decompress_with_size E fuel data).1[k]? = some call →
      k + 1 < (PyULZ.decompress_with_size E fuel data).1.length →
      call.ret < 0 ∧ call.out_len < (((INT_MAX - E.EXCESS) : Nat) : Int)) ∧
    (∀ e : Raised, (PyULZ.decompress_with_size E fuel data).2 = some (.raised e) →
      e = .growth_failed ∧
      ∃ call, (PyULZ.decompress_with_size E fuel data).1.getLast? = some call ∧
        call.out_len = (((INT_MAX - E.EXCESS) : Nat) : Int) ∧ call.ret < 0) ∧
    ((PyULZ.decompress_with_size E fuel data).2 = none → (PyULZ.decompress_with_size E fuel data).1.length = fuel) ∧
    (data ≠ [] → 30 ≤ fuel → (PyULZ.decompress_with_size E fuel data).2 ≠ none) := by
  rw [PyULZ.with_size_eq_loop E fuel data hn]
  have hsched := PyULZ.loop_schedule E data hE hn fuel (4 * data.length) []
  have hcont := PyULZ.loop_continue E data hE hn fuel (4 * data.length) []
  refine ⟨?_, ?_, PyULZ.loop_return E data hE hn fuel _ _,
    PyULZ.loop_raise_at_cap E data hE hn fuel _ _, ?_, hcont,
    PyULZ.loop_raise E data hE hn fuel _ _, PyULZ.loop_unfinished E data _ fuel _ _, ?_⟩
  · intro hfuel
    obtain ⟨f, rfl⟩ : ∃ j, fuel = j + 1 := ⟨fuel - 1, by omega⟩
    rw [PyULZ.loop_first_call E data f _ _ hE hn]
    unfold loop_call loop_engine_result capped
    rw [PyULZ.resize_nil]
  · intro k call hk
    exact ⟨PyULZ.loop_trace E data hE hn fuel _ _ k call hk, hsched k call hk⟩
  · intro k call hk hret hlt hfuel
    obtain ⟨next, hnx⟩ := PyULZ.loop_next E data hE hn fuel _ _ k call hk hret hlt hfuel
    refine ⟨next, hnx, ?_⟩
    obtain ⟨_, hout, _⟩ := hsched k call hk
    obtain ⟨_, hout2, _⟩ := hsched (k + 1) next hnx
    rw [hout] at hlt
    have hlt2 : min (4 * data.length * 2 ^ k) (INT_MAX - E.EXCESS) < INT_MAX - E.EXCESS :=
      Int.ofNat_lt.mp hlt
    have hmin : min (4 * data.length * 2 ^ k) (INT_MAX - E.EXCESS) = 4 * data.length * 2 ^ k := by
      rcases Nat.le_total (4 * data.length * 2 ^ k) (INT_MAX - E.EXCESS) with h1 | h1
      · exact Nat.min_eq_left h1
      · rw [Nat.min_eq_right h1] at hlt2
        exact absurd hlt2 (Nat.lt_irrefl _)
    have he : 4 * data.length * 2 ^ (k + 1) = 2 * (4 * data.length * 2 ^ k) := by ring
    rw [hout2, hout, Int.toNat_ofNat, hmin, he]
  · intro hne hfuel
    obtain ⟨f, rfl⟩ : ∃ j, fuel = j + 1 := ⟨fuel - 1, by omega⟩
    apply PyULZ.loop_finishes E data hE hn
    have := PyULZ.pow_bound data.length f (List.length_pos.mpr hne) (by omega)
    omega

/-- Witness of C6 at the run engine, the compressed bytes `1, 100, 65` and fuel 40. -/
theorem decompress_with_size_schedule_witness :
    runEngine.EXCESS ≤ INT_MAX ∧ ([1, 100, 65] : List U8).length ≤ INT_MAX ∧
    ((1 ≤ 40 →
      (PyULZ.decompress_with_size runEngine 40 ([1, 100, 65] : List U8)).1[0]? = some
        ⟨([1, 100, 65] : List U8).length, min (4 * ([1, 100, 65] : List U8).length) (INT_MAX - runEngine.EXCESS) + runEngine.EXCESS,
          ((min (4 * ([1, 100, 65] : List U8).length) (INT_MAX - runEngine.EXCESS) : Nat) : Int),
          (runEngine.Decompress ([1, 100, 65] : List U8) ([1, 100, 65] : List U8).length
            (List.replicate (min (4 * ([1, 100, 65] : List U8).length) (INT_MAX - runEngine.EXCESS) + runEngine.EXCESS) 0)
            ((min (4 * ([1, 100, 65] : List U8).length) (INT_MAX - runEngine.EXCESS) : Nat) : Int)).1⟩) ∧
    (∀ (k : Nat) (call : DecompressCall),
      (PyULZ.decompress_with_size runEngine 40 ([1, 100, 65] : List U8)).1[k]? = some call →
      call = loop_call runEngine ([1, 100, 65] : List U8) (4 * ([1, 100, 65] : List U8).length * 2 ^ k)
        (loop_buffer runEngine ([1, 100, 65] : List U8) (4 * ([1, 100, 65] : List U8).length) [] k) ∧
      call.in_len = ([1, 100, 65] : List U8).length ∧
      call.out_len = ((min (4 * ([1, 100, 65] : List U8).length * 2 ^ k) (INT_MAX - runEngine.EXCESS) : Nat) : Int) ∧
      call.buf_size = min (4 * ([1, 100, 65] : List U8).length * 2 ^ k) (INT_MAX - runEngine.EXCESS) + runEngine.EXCESS) ∧
    (∀ (k : Nat) (call : DecompressCall),
      (PyULZ.decompress_with_size runEngine 40 ([1, 100, 65] : List U8)).1[k]? = some call → 0 ≤ call.ret →
      (PyULZ.decompress_with_size runEngine 40 ([1, 100, 65] : List U8)).1.length = k + 1 ∧
      (PyULZ.decompress_with_size runEngine 40 ([1, 100, 65] : List U8)).2 = some (.returned
        ((loop_engine_result runEngine ([1, 100, 65] : List U8) (4 * ([1, 100, 65] : List U8).length * 2 ^ k)
          (loop_buffer runEngine ([1, 100, 65] : List U8) (4 * ([1, 100, 65] : List U8).length) [] k)).2.take call.ret.toNat,
          castSize call.ret))) ∧
    (∀ (k : Nat) (call : DecompressCall),
      (PyULZ.decompress_with_size runEngine 40 ([1, 100, 65] : List U8)).1[k]? = some call → call.ret < 0 →
      call.out_len = (((INT_MAX - runEngine.EXCESS) : Nat) : Int) →
      (PyULZ.decompress_with_size runEngine 40 ([1, 100, 65] : List U8)).1.length = k + 1 ∧
      (PyULZ.decompress_with_size runEngine 40 ([1, 100, 65] : List U8)).2 = some (.raised .growth_failed)) ∧
    (∀ (k : Nat) (call : DecompressCall),
      (PyULZ.decompress_with_size runEngine 40 ([1, 100, 65] : List U8)).1[k]? = some call → call.ret < 0 →
      call.out_len < (((INT_MAX - runEngine.EXCESS) : Nat) : Int) → k + 1 < 40 →
      ∃ next, (PyULZ.decompress_with_size runEngine 40 ([1, 100, 65] : List U8)).1[k + 1]? = some next ∧
        next.out_len = ((min (2 * call.out_len.toNat) (INT_MAX - runEngine.EXCESS) : Nat) : Int)) ∧
    (∀ (k : Nat) (call : DecompressCall),
      (PyULZ.decompress_with_size runEngine 40 ([1, 100, 65] : List U8)).1[k]? = some call →
      k + 1 < (PyULZ.decompress_with_size runEngine 40 ([1, 100, 65] : List U8)).1.length →
      call.ret < 0 ∧ call.out_len < (((INT_MAX - runEngine.EXCESS) : Nat) : Int)) ∧
    (∀ e : Raised, (PyULZ.decompress_with_size runEngine 40 ([1, 100, 65] : List U8)).2 = some (.raised e) →
      e = .growth_failed ∧
      ∃ call, (PyULZ.decompress_with_size runEngine 40 ([1, 100, 65] : List U8)).1.getLast? = some call ∧
        call.out_len = (((INT_MAX - runEngine.EXCESS) : Nat) : Int) ∧ call.ret < 0) ∧
    ((PyULZ.decompress_with_size runEngine 40 ([1, 100, 65] : List U8)).2 = none → (PyULZ.decompress_with_size runEngine 40 ([1, 100, 65] : List U8)).1.length = 40) ∧
    (([1, 100, 65] : List U8) ≠ [] → 30 ≤ 40 → (PyULZ.decompress_with_size runEngine 40 ([1, 100, 65] : List U8)).2 ≠ none)) :=
  ⟨by decide, by decide,
    decompress_with_size_schedule runEngine [1, 100, 65] 40 (by decide) (by decide)⟩

/-! ## No wrap at the engine boundary -/

/-- C10 (no integer wrap at the engine boundary, `size_t` 64-bit, `int` 32-bit,
`EXCESS <= INT_MAX`): every engine call of `compress`, `decompress` and
`decompress_with_size` has `in_len = len(input)` in `[0, INT_MAX]`; on the decompress paths
`out_len` is the capacity itself and lies in `[0, INT_MAX - EXCESS]`; the output vector has
`len(data) + EXCESS`, respectively `out_len + EXCESS`, bytes, which is at most `INT_MAX`;
every `static_cast<int>` keeps its value, and the products `input_size * 4` and
`estimated_output_size * 2` are not reduced modulo `2^64`. -/
theorem no_wrap_at_engine_boundary (E : CULZ) (data : List U8) (level : Int)
    (original_size fuel : Nat) (hE : E.EXCESS ≤ INT_MAX) :
    (∀ call ∈ (PyULZ.compress E data level).1,
      castInt data.length = (data.length : Int) ∧ call.in_len = (data.length : Int) ∧
      0 ≤ call.in_len ∧ call.in_len ≤ (INT_MAX : Int) ∧
      add64 data.length E.EXCESS = data.length + E.EXCESS ∧
      call.buf_size = data.length + E.EXCESS ∧ call.buf_size ≤ INT_MAX ∧
      castInt call.buf_size = (call.buf_size : Int)) ∧
    (∀ call ∈ (PyULZ.decompress E data original_size).1,
      castInt data.length = (data.length : Int) ∧ call.in_len = (data.length : Int) ∧
      0 ≤ call.in_len ∧ call.in_len ≤ (INT_MAX : Int) ∧
      mul64 data.length 4 = 4 * data.length ∧
      castInt (chosen_capacity data.length original_size)
        = (chosen_capacity data.length original_size : Int) ∧
      call.out_len = (chosen_capacity data.length original_size : Int) ∧
      0 ≤ call.out_len ∧ call.out_len ≤ ((INT_MAX - E.EXCESS : Nat) : Int) ∧
      (call.buf_size : Int) = call.out_len + (E.EXCESS : Int) ∧ call.buf_size ≤ INT_MAX) ∧
    (∀ (k : Nat) (call : DecompressCall),
      (PyULZ.decompress_with_size E fuel data).1[k]? = some call →
      castInt data.length = (data.length : Int) ∧ call.in_len = (data.length : Int) ∧
      0 ≤ call.in_len ∧ call.in_len ≤ (INT_MAX : Int) ∧
      mul64 data.length 4 = 4 * data.length ∧
      castInt call.out_len.toNat = call.out_len ∧
      0 ≤ call.out_len ∧ call.out_len ≤ ((INT_MAX - E.EXCESS : Nat) : Int) ∧
      (call.buf_size : Int) = call.out_len + (E.EXCESS : Int) ∧ call.buf_size ≤ INT_MAX ∧
      (k + 1 < (PyULZ.decompress_with_size E fuel data).1.length →
        mul64 call.out_len.toNat 2 = 2 * call.out_len.toNat ∧
        ∀ next, (PyULZ.decompress_with_size E fuel data).1[k + 1]? = some next →
          next.out_len = ((min (2 * call.out_len.toNat) (INT_MAX - E.EXCESS) : Nat) : Int))) := by
  refine ⟨?_, ?_, ?_⟩
  · intro call hmem
    by_cases hv : 1 ≤ level ∧ level ≤ 9 ∧ data.length ≤ INT_MAX - E.EXCESS
    · obtain ⟨h1, h9, hn⟩ := hv
      rw [PyULZ.compress_calls_of_valid E data level hE h1 h9 hn, List.mem_singleton] at hmem
      have hsum : data.length + E.EXCESS ≤ INT_MAX := by omega
      have hlen : data.length ≤ INT_MAX := by omega
      have h0 : (0 : Int) ≤ (data.length : Int) := Int.ofNat_nonneg _
      have hle : (data.length : Int) ≤ (INT_MAX : Int) := Int.ofNat_le.mpr hlen
      rw [hmem]
      exact ⟨castInt_of_le data.length hlen, rfl, h0, hle, add64_of_le data.length E.EXCESS hsum,
        rfl, hsum, castInt_of_le (data.length + E.EXCESS) hsum⟩
    · exfalso
      by_cases hl : level < 1 ∨ level > 9
      · rw [PyULZ.compress_of_bad_level E data level hl] at hmem
        exact List.not_mem_nil _ hmem
      · rw [PyULZ.compress_of_too_long E data level hE (by omega) (by omega) (by omega)] at hmem
        exact List.not_mem_nil _ hmem
  · intro call hmem
    by_cases hn : INT_MAX < data.length
    · rw [PyULZ.decompress_of_too_long E data original_size hn] at hmem
      exact absurd hmem (List.not_mem_nil _)
    · by_cases hcap : INT_MAX - E.EXCESS < chosen_capacity data.length original_size
      · rw [PyULZ.decompress_of_large_estimate E data original_size hE (by omega) hcap] at hmem
        exact absurd hmem (List.not_mem_nil _)
      · rw [PyULZ.decompress_calls_of_valid E data original_size hE (by omega) (by omega),
          List.mem_singleton] at hmem
        have hlen : data.length ≤ INT_MAX := by omega
        have hcl : chosen_capacity data.length original_size ≤ INT_MAX - E.EXCESS := by omega
        have hcm : chosen_capacity data.length original_size ≤ INT_MAX := by omega
        have hsum : chosen_capacity data.length original_size + E.EXCESS ≤ INT_MAX := by omega
        have h0 : (0 : Int) ≤ (data.length : Int) := Int.ofNat_nonneg _
        have hle : (data.length : Int) ≤ (INT_MAX : Int) := Int.ofNat_le.mpr hlen
        have h0c : (0 : Int) ≤ (chosen_capacity data.length original_size : Int) :=
          Int.ofNat_nonneg _
        have hlc : (chosen_capacity data.length original_size : Int)
            ≤ ((INT_MAX - E.EXCESS : Nat) : Int) := Int.ofNat_le.mpr hcl
        rw [hmem]
        exact ⟨castInt_of_le data.length hlen, rfl, h0, hle, mul64_four data.length hlen,
          castInt_of_le _ hcm, rfl, h0c, hlc, Int.ofNat_add _ _, hsum⟩
  · intro k call hk
    by_cases hn : INT_MAX < data.length
    · rw [PyULZ.with_size_of_too_long E fuel data hn] at hk
      simp only [List.getElem?_nil] at hk
      exact Option.noConfusion hk
    · have hn2 : data.length ≤ INT_MAX := by omega
      rw [PyULZ.with_size_eq_loop E fuel data hn2] at hk ⊢
      obtain ⟨hin, hout, hbuf⟩ := PyULZ.loop_schedule E data hE hn2 fuel _ _ k call hk
      have hmle : min (4 * data.length * 2 ^ k) (INT_MAX - E.EXCESS) ≤ INT_MAX - E.EXCESS :=
        Nat.min_le_right _ _
      have hnext : ∀ next,
          (PyULZ.decompress_with_size_loop E data data.length fuel (4 * data.length) []).1[k + 1]?
            = some next →
          next.out_len
            = ((min (2 * (4 * data.length * 2 ^ k)) (INT_MAX - E.EXCESS) : Nat) : Int) := by
        intro next hnx
        obtain ⟨_, hout2, _⟩ := PyULZ.loop_schedule E data hE hn2 fuel _ _ (k + 1) next hnx
        have he : 4 * data.length * 2 ^ (k + 1) = 2 * (4 * data.length * 2 ^ k) := by ring
        rw [hout2, he]
      have hcont := PyULZ.loop_continue E data hE hn2 fuel _ _ k call hk
      have hmin : min (4 * data.length * 2 ^ k) (INT_MAX - E.EXCESS) < INT_MAX - E.EXCESS →
          min (4 * data.length * 2 ^ k) (INT_MAX - E.EXCESS) = 4 * data.length * 2 ^ k := by
        intro h
        rcases Nat.le_total (4 * data.length * 2 ^ k) (INT_MAX - E.EXCESS) with h1 | h1
        · exact Nat.min_eq_left h1
        · rw [Nat.min_eq_right h1] at h
          exact absurd h (Nat.lt_irrefl _)
      have hlimE : INT_MAX - E.EXCESS + E.EXCESS ≤ INT_MAX := by omega
      generalize min (4 * data.length * 2 ^ k) (INT_MAX - E.EXCESS) = m at hout hbuf hmle hmin
      generalize 4 * data.length * 2 ^ k = a at hnext hmin
      generalize INT_MAX - E.EXCESS = lim at hmle hnext hcont hmin hlimE ⊢
      have hto : call.out_len.toNat = m := by rw [hout, Int.toNat_ofNat]
      have hmI : m ≤ INT_MAX := by omega
      have hsum : m + E.EXCESS ≤ INT_MAX := by omega
      have h0 : (0 : Int) ≤ (data.length : Int) := Int.ofNat_nonneg _
      have hle : (data.length : Int) ≤ (INT_MAX : Int) := Int.ofNat_le.mpr hn2
      rw [hto, hin, hout, hbuf]
      refine ⟨castInt_of_le data.length hn2, rfl, h0, hle, mul64_four data.length hn2,
        castInt_of_le m hmI, Int.ofNat_nonneg _, Int.ofNat_le.mpr hmle, Int.ofNat_add _ _, hsum,
        ?_⟩
      intro hlen
      obtain ⟨_, hlt⟩ := hcont hlen
      rw [hout] at hlt
      have hma : m = a := hmin (Int.ofNat_lt.mp hlt)
      refine ⟨mul64_two m hmI, ?_⟩
      intro next hnx
      rw [hnext next hnx, hma]

/-- Witness of C10 at the run engine, the bytes `1, 100, 65`, level 5, hint 0 and
fuel 40. -/
theorem no_wrap_at_engine_boundary_witness :
    runEngine.EXCESS ≤ INT_MAX ∧
    ((∀ call ∈ (PyULZ.compress runEngine [1, 100, 65] 5).1,
      castInt [(1 : U8), 100, 65].length = ([(1 : U8), 100, 65].length : Int) ∧
      call.in_len = ([(1 : U8), 100, 65].length : Int) ∧
      0 ≤ call.in_len ∧ call.in_len ≤ (INT_MAX : Int) ∧
      add64 [(1 : U8), 100, 65].length runEngine.EXCESS
        = [(1 : U8), 100, 65].length + runEngine.EXCESS ∧
      call.buf_size = [(1 : U8), 100, 65].length + runEngine.EXCESS ∧
      call.buf_size ≤ INT_MAX ∧
      castInt call.buf_size = (call.buf_size : Int)) ∧
    (∀ call ∈ (PyULZ.decompress runEngine [1, 100, 65] 0).1,
      castInt [(1 : U8), 100, 65].length = ([(1 : U8), 100, 65].length : Int) ∧
      call.in_len = ([(1 : U8), 100, 65].length : Int) ∧
      0 ≤ call.in_len ∧ call.in_len ≤ (INT_MAX : Int) ∧
      mul64 [(1 : U8), 100, 65].length 4 = 4 * [(1 : U8), 100, 65].length ∧
      castInt (chosen_capacity [(1 : U8), 100, 65].length 0)
        = (chosen_capacity [(1 : U8), 100, 65].length 0 : Int) ∧
      call.out_len = (chosen_capacity [(1 : U8), 100, 65].length 0 : Int) ∧
      0 ≤ call.out_len ∧ call.out_len ≤ ((INT_MAX - runEngine.EXCESS : Nat) : Int) ∧
      (call.buf_size : Int) = call.out_len + (runEngine.EXCESS : Int) ∧
      call.buf_size ≤ INT_MAX) ∧
    (∀ (k : Nat) (call : DecompressCall),
      (PyULZ.decompress_with_size runEngine 40 [1, 100, 65]).1[k]? = some call →
      castInt [(1 : U8), 100, 65].length = ([(1 : U8), 100, 65].length : Int) ∧
      call.in_len = ([(1 : U8), 100, 65].length : Int) ∧
      0 ≤ call.in_len ∧ call.in_len ≤ (INT_MAX : Int) ∧
      mul64 [(1 : U8), 100, 65].length 4 = 4 * [(1 : U8), 100, 65].length ∧
      castInt call.out_len.toNat = call.out_len ∧
      0 ≤ call.out_len ∧ call.out_len ≤ ((INT_MAX - runEngine.EXCESS : Nat) : Int) ∧
      (call.buf_size : Int) = call.out_len + (runEngine.EXCESS : Int) ∧
      call.buf_size ≤ INT_MAX ∧
      (k + 1 < (PyULZ.decompress_with_size runEngine 40 [1, 100, 65]).1.length →
        mul64 call.out_len.toNat 2 = 2 * call.out_len.toNat ∧
        ∀ next, (PyULZ.decompress_with_size runEngine 40 [1, 100, 65]).1[k + 1]? = some next →
          next.out_len
            = ((min (2 * call.out_len.toNat) (INT_MAX - runEngine.EXCESS) : Nat) : Int)))) :=
  ⟨by decide, no_wrap_at_engine_boundary runEngine [1, 100, 65] 5 0 40 (by decide)⟩
